import Mathlib

/-!
Verification of the schema/SQL transformation engine of the dbms2 backend
(src/backend/app/main.py): the forward generator
(generate_sql_from_structured_schema / generate_table_sql), the reverse
parser (parse_sql_to_schema), the statement splitter inside execute_sql,
and the name-based type/constraint inferencer shared by both directions.

Python strings are embedded as lists of characters (`Str`); every function
below is a direct transcription of the corresponding Python code.
-/

namespace Dbms2

/-- Python strings are modelled as lists of characters. -/
abbrev Str := List Char

/-- Coerce a Lean string literal to the character-list model. -/
def str (s : String) : Str := s.data

/-- ASCII whitespace, matching Python's str.strip / regex class for the inputs
at hand. -/
def isSpaceChar (c : Char) : Bool :=
  c = ' ' || c = '\t' || c = '\n' || c = '\r' || c = '\x0b' || c = '\x0c'

/-- Word characters, the ASCII reading of the regex word class used throughout
the Python source. -/
def isWordChar (c : Char) : Bool :=
  ('a' ≤ c && c ≤ 'z') || ('A' ≤ c && c ≤ 'Z') || ('0' ≤ c && c ≤ '9') || c = '_'

/-- Lower-case a string character-wise, as Python's str.lower does on ASCII. -/
def lowerStr (s : Str) : Str := s.map Char.toLower

/-- Upper-case a string character-wise, as Python's str.upper does on ASCII. -/
def upperStr (s : Str) : Str := s.map Char.toUpper

/-- Python's substring containment test (needle in haystack). -/
def containsSub (needle : Str) : Str → Bool
  | [] => needle.isEmpty
  | c :: rest => needle.isPrefixOf (c :: rest) || containsSub needle rest

/-- Python's str.endswith. -/
def endsWith (suffixStr s : Str) : Bool := suffixStr.isSuffixOf s

/-- Python's str.strip: drop ASCII whitespace from both ends. -/
def stripChars (s : Str) : Str :=
  ((s.dropWhile isSpaceChar).reverse.dropWhile isSpaceChar).reverse

/-!
## Data model

Source of truth: the dictionaries flowing through generate_table_sql and
parse_sql_to_schema.  A structured-schema table carries a name and an
ordered attribute (name) list; a relationship carries the four endpoint
strings read by the generator and produced by the parser.
-/

/-- Relationship record: the four fields generate_table_sql reads and
parse_sql_to_schema writes. -/
structure Rel where
  fromTable : Str
  fromColumn : Str
  toTable : Str
  toColumn : Str
  deriving Repr, DecidableEq

/-- Structured-schema table: name plus ordered attribute names, as consumed by
generate_table_sql. -/
structure Table where
  name : Str
  attributes : List Str
  deriving Repr, DecidableEq

/-- Structured schema: ordered tables plus ordered relationships. -/
structure Schema where
  tables : List Table
  relationships : List Rel
  deriving Repr, DecidableEq

/-- Table as produced by parse_sql_to_schema: name, attribute-name list, and
(name, declared type) column pairs. -/
structure ParsedTable where
  name : Str
  attributes : List Str
  columns : List (Str × Str)
  deriving Repr, DecidableEq

/-- Schema as produced by parse_sql_to_schema. -/
structure ParsedSchema where
  tables : List ParsedTable
  relationships : List Rel
  deriving Repr, DecidableEq

/-!
## Type/constraint inferencer (main.py lines 578-599)

The data_type chain and the constraint conditions inside the attribute loop
of generate_table_sql.
-/

/-- The data_type if/elif chain of generate_table_sql (main.py 578-587). -/
def inferType (attr : Str) : Str :=
  let la := lowerStr attr
  if endsWith (str "_id") la && !endsWith (str "name") la then str "INTEGER"
  else if containsSub (str "date") la then str "DATE"
  else if containsSub (str "time") la || containsSub (str "duration") la then str "INTEGER"
  else if containsSub (str "age") la || containsSub (str "price") la ||
          containsSub (str "amount") la || containsSub (str "credits") la then str "INTEGER"
  else str "TEXT"

/-- The primary-key eligibility test of main.py line 592: lower-cased name ends
with the three characters underscore-i-d and does not end with the word name. -/
def idLike (attr : Str) : Bool :=
  endsWith (str "_id") (lowerStr attr) && !endsWith (str "name") (lowerStr attr)

/-!
## Forward generator (main.py 551-614)
-/

/-- One attribute line of the generated CREATE TABLE body: two-space indent,
name, inferred type, then PRIMARY KEY / UNIQUE / NOT NULL in that fixed
order, then a comma unless this is the last line of the body
(main.py 589-603).  The pk flag is decided by the caller's loop state. -/
def attrLine (a : Str) (pk : Bool) (isLast relsNonempty : Bool) : Str :=
  str "  " ++ a ++ str " " ++ inferType a ++
  (if pk then str " PRIMARY KEY" else []) ++
  (if containsSub (str "email") (lowerStr a) then str " UNIQUE" else []) ++
  (if containsSub (str "name") (lowerStr a) && !endsWith (str "_id") (lowerStr a)
     then str " NOT NULL" else []) ++
  (if !isLast || relsNonempty then str "," else []) ++ str "\n"

/-- The attribute loop of generate_table_sql (main.py 575-603), carrying the
has_primary_key flag. -/
def genAttrs (attrs : List Str) (hasPK : Bool) (relsNonempty : Bool) : Str :=
  match attrs with
  | [] => []
  | a :: rest =>
    let pk := !hasPK && idLike a
    attrLine a pk rest.isEmpty relsNonempty ++ genAttrs rest (hasPK || pk) relsNonempty

/-- The per-attribute primary-key decisions of the same loop, in order: true
exactly where the PRIMARY KEY branch of main.py 592-594 fires. -/
def pkFlags (attrs : List Str) (hasPK : Bool) : List Bool :=
  match attrs with
  | [] => []
  | a :: rest =>
    let pk := !hasPK && idLike a
    pk :: pkFlags rest (hasPK || pk)

/-- The foreign-key block of generate_table_sql (main.py 606-611): one line per
relationship of this table, comma after every line but the last. -/
def genFKs (trels : List Rel) : Str :=
  match trels with
  | [] => []
  | r :: rest =>
    str "  FOREIGN KEY (" ++ r.fromColumn ++ str ") REFERENCES " ++ r.toTable ++
    str "s(" ++ r.toColumn ++ str ")" ++
    (if rest.isEmpty then [] else str ",") ++ str "\n" ++ genFKs rest

/-- generate_table_sql (main.py 561-614).  The table name is pluralized by a
plain s suffix; the comma after the final attribute is controlled by the
whole schema's relationship list, while the FOREIGN KEY block only renders
the relationships whose fromTable is this table. -/
def generate_table_sql (table : Table) (_all_tables : List Table)
    (relationships : List Rel) : Str :=
  str "CREATE TABLE IF NOT EXISTS " ++ table.name ++ str "s (\n" ++
  genAttrs table.attributes false (!relationships.isEmpty) ++
  genFKs (relationships.filter (fun r => r.fromTable == table.name)) ++
  str ");"

/-- Python's separator.join: empty for no parts, otherwise the parts with the
separator between consecutive ones. -/
def joinBlocks : List Str → Str
  | [] => []
  | [x] => x
  | x :: rest => x ++ str "\n\n" ++ joinBlocks rest

/-- generate_sql_from_structured_schema (main.py 551-559): per-table SQL joined
by one blank line. -/
def generate_sql_from_structured_schema (schema : Schema) : Str :=
  joinBlocks
    (schema.tables.map (fun t => generate_table_sql t schema.tables schema.relationships))

/-- Modelled from the spec: the id-naming pattern of spec rule 1 (name ends
with the underscore-i-d suffix or with the bare i-d suffix, and does not end
with the word name), used only to compare the spec's claim with the code's
idLike test. -/
def specIdPattern (a : Str) : Bool :=
  (endsWith (str "_id") (lowerStr a) || endsWith (str "id") (lowerStr a)) &&
  !endsWith (str "name") (lowerStr a)

/-- Mark the first list entry satisfying idLike with true and everything else
with false: the declarative description of the primary-key choice. -/
def markFirst : List Str → List Bool
  | [] => []
  | a :: rest =>
    if idLike a then true :: rest.map (fun _ => false) else false :: markFirst rest

/-- Render the attribute lines from a precomputed list of primary-key flags. -/
def renderAttrLines : List Str → List Bool → Bool → Str
  | [], _, _ => []
  | a :: rest, pks, relsNonempty =>
    attrLine a (pks.headD false) rest.isEmpty relsNonempty ++
    renderAttrLines rest pks.tail relsNonempty

/-!
## Statement splitter (main.py 152)
-/

/-- Python's str.split on the semicolon character, keeping empty fragments. -/
def splitOnSemi : Str → List Str
  | [] => [[]]
  | c :: rest =>
    if c = ';' then [] :: splitOnSemi rest
    else
      match splitOnSemi rest with
      | [] => [[c]]
      | f :: fs => (c :: f) :: fs

/-- The statement splitter of execute_sql (main.py 152): split the text on
every semicolon, strip each fragment, and keep only fragments that are
nonempty after stripping. -/
def splitStatements (sql : Str) : List Str :=
  ((splitOnSemi sql).map stripChars).filter (fun f => !f.isEmpty)

/-- Modelled from the spec: the Statement Splitter of spec section 4.4, which
splits a DDL text into statements on semicolons at top level only (tracking
parenthesis depth), trimming fragments and discarding empties.  Used solely
to compare the spec's description with splitStatements. -/
def specSplitStatementsAux (cur : Str) (depth : Int) : Str → List Str
  | [] => if (stripChars cur).isEmpty then [] else [stripChars cur]
  | c :: rest =>
    if c = '(' then specSplitStatementsAux (cur ++ [c]) (depth + 1) rest
    else if c = ')' then specSplitStatementsAux (cur ++ [c]) (depth - 1) rest
    else if c = ';' ∧ depth = 0 then
      (if (stripChars cur).isEmpty then [] else [stripChars cur]) ++
      specSplitStatementsAux [] 0 rest
    else specSplitStatementsAux (cur ++ [c]) depth rest

/-- Modelled from the spec: entry point of the top-level-only splitter. -/
def specSplitStatements (sql : Str) : List Str := specSplitStatementsAux [] 0 sql

/-!
## Reverse parser: body splitter (main.py 1150-1169)
-/

/-- The character scan of parse_sql_to_schema (main.py 1154-1169): walk the
body tracking paren_count, cut at commas seen at depth zero, strip each
fragment and drop empty ones. -/
def splitDefsAux (cur : Str) (depth : Int) : Str → List Str
  | [] => if (stripChars cur).isEmpty then [] else [stripChars cur]
  | c :: rest =>
    if c = '(' then splitDefsAux (cur ++ [c]) (depth + 1) rest
    else if c = ')' then splitDefsAux (cur ++ [c]) (depth - 1) rest
    else if c = ',' ∧ depth = 0 then
      (if (stripChars cur).isEmpty then [] else [stripChars cur]) ++ splitDefsAux [] 0 rest
    else splitDefsAux (cur ++ [c]) depth rest

/-- Split a CREATE TABLE body into definitions at top-level commas. -/
def splitDefs (body : Str) : List Str := splitDefsAux [] 0 body

/-- One step of the parenthesis-depth counter. -/
def parenStep (d : Int) (c : Char) : Int :=
  if c = '(' then d + 1 else if c = ')' then d - 1 else d

/-- Depth after scanning a whole string from starting depth d. -/
def scanBal (d : Int) (v : Str) : Int := v.foldl parenStep d

/-- True when every intermediate depth while scanning v from depth d stays at
least one, so no character of v is ever seen at depth zero. -/
def innerOK (d : Int) : Str → Bool
  | [] => true
  | c :: rest => (decide (1 ≤ parenStep d c)) && innerOK (parenStep d c) rest

/-- A character that is neither a comma nor a parenthesis, so the body scanner
neither splits at it nor changes depth on it. -/
def plainChar (c : Char) : Bool := !(c = ',' || c = '(' || c = ')')

/-- Append a string to the first fragment of a fragment list. -/
def appHead (ws : Str) : List Str → List Str
  | [] => [ws]
  | f :: fs => (ws ++ f) :: fs

/-- Append a string to the last fragment of a fragment list. -/
def appLast (ws : Str) : List Str → List Str
  | [] => [ws]
  | [f] => [f ++ ws]
  | f :: fs => f :: appLast ws fs

/-!
## Reverse parser: regex machinery (main.py 1139-1214)

The patterns of parse_sql_to_schema are compiled with IGNORECASE and DOTALL.
Each piece of a pattern is embedded as a deterministic matcher: the character
classes involved (word characters, whitespace, literals, single characters)
are pairwise disjoint at every junction of the patterns used, so the greedy
maximal-munch matchers below realise exactly the regex semantics, including
the one backtracking point (the optional IF NOT EXISTS group).
-/

/-- Match a literal (given upper-cased) case-insensitively at the head of the
input, returning the remaining input. -/
def matchLitCI (lit : Str) (s : Str) : Option Str :=
  match lit, s with
  | [], s => some s
  | _ :: _, [] => none
  | l :: ls, c :: cs => if c.toUpper = l then matchLitCI ls cs else none

/-- Match one-or-more whitespace greedily. -/
def matchSpaces1 : Str → Option Str
  | [] => none
  | c :: cs => if isSpaceChar c then some (cs.dropWhile isSpaceChar) else none

/-- Match one-or-more word characters greedily, returning the captured run. -/
def matchWord1 (s : Str) : Option (Str × Str) :=
  let w := s.takeWhile isWordChar
  if w.isEmpty then none else some (w, s.dropWhile isWordChar)

/-- Match a single given character at the head of the input. -/
def matchChar (c : Char) : Str → Option Str
  | [] => none
  | x :: xs => if x = c then some xs else none

/-- Match zero-or-more whitespace greedily. -/
def dropSpaces (s : Str) : Str := s.dropWhile isSpaceChar

/-- The non-greedy body capture of the CREATE TABLE pattern: everything up to
the first closing-parenthesis-semicolon pair, with the remaining input. -/
def findCloseSemi : Str → Option (Str × Str)
  | [] => none
  | c :: rest =>
    if c = ')' ∧ rest.head? = some ';' then some ([], rest.tail)
    else (findCloseSemi rest).map (fun p => (c :: p.1, p.2))

/-- The optional IF NOT EXISTS group of the CREATE TABLE pattern. -/
def matchIfNotExists (s : Str) : Option Str :=
  (matchLitCI (str "IF") s).bind fun s1 =>
  (matchSpaces1 s1).bind fun s2 =>
  (matchLitCI (str "NOT") s2).bind fun s3 =>
  (matchSpaces1 s3).bind fun s4 =>
  (matchLitCI (str "EXISTS") s4).bind fun s5 =>
  matchSpaces1 s5

/-- Table name, opening parenthesis and body of the CREATE TABLE pattern. -/
def matchNameBody (s : Str) : Option (Str × Str × Str) :=
  (matchWord1 s).bind fun p =>
  (matchChar '(' (dropSpaces p.2)).bind fun s2 =>
  (findCloseSemi s2).bind fun q =>
  some (p.1, q.1, q.2)

/-- Attempt the whole CREATE TABLE pattern at the head of the input, returning
the captured table name, body and the input remaining after the match.  The
optional group is tried first and abandoned if the rest of the pattern then
fails, exactly as the regex engine backtracks. -/
def headMatch (s : Str) : Option (Str × Str × Str) :=
  (matchLitCI (str "CREATE") s).bind fun s1 =>
  (matchSpaces1 s1).bind fun s2 =>
  (matchLitCI (str "TABLE") s2).bind fun s3 =>
  (matchSpaces1 s3).bind fun s4 =>
  match (matchIfNotExists s4).bind matchNameBody with
  | some r => some r
  | none => matchNameBody s4

/-!
Length facts about the matchers, needed to define the scanning loop by
well-founded recursion.
-/

theorem dropWhile_length_le (p : Char → Bool) (l : Str) :
    (l.dropWhile p).length ≤ l.length := by
  induction l with
  | nil => simp
  | cons c cs ih =>
    by_cases hc : p c = true
    · simp only [List.dropWhile_cons, hc, if_true]
      exact Nat.le_succ_of_le ih
    · simp [List.dropWhile_cons, hc]

theorem matchLitCI_length (lit : Str) (s r : Str) (h : matchLitCI lit s = some r) :
    r.length + lit.length = s.length := by
  induction lit generalizing s with
  | nil => simp [matchLitCI] at h; simp [h]
  | cons l ls ih =>
    cases s with
    | nil => simp [matchLitCI] at h
    | cons c cs =>
      simp only [matchLitCI] at h
      by_cases hc : c.toUpper = l
      · rw [if_pos hc] at h
        have := ih cs h
        simp [List.length_cons]
        omega
      · rw [if_neg hc] at h; exact absurd h (by simp)

theorem matchSpaces1_length (s r : Str) (h : matchSpaces1 s = some r) :
    r.length < s.length := by
  cases s with
  | nil => simp [matchSpaces1] at h
  | cons c cs =>
    simp only [matchSpaces1] at h
    by_cases hc : isSpaceChar c = true
    · rw [if_pos hc] at h
      simp only [Option.some.injEq] at h
      have hd : (cs.dropWhile isSpaceChar).length ≤ cs.length := dropWhile_length_le _ _
      rw [← h]
      simp only [List.length_cons]
      omega
    · rw [if_neg hc] at h; exact absurd h (by simp)

theorem matchWord1_length (s : Str) (w r : Str) (h : matchWord1 s = some (w, r)) :
    r.length < s.length := by
  cases s with
  | nil => simp [matchWord1] at h
  | cons c cs =>
    by_cases hc : isWordChar c = true
    · simp only [matchWord1, List.takeWhile_cons, List.dropWhile_cons, hc, if_true,
        List.isEmpty_cons, Bool.false_eq_true, if_false, Option.some.injEq,
        Prod.mk.injEq] at h
      have hd : (cs.dropWhile isWordChar).length ≤ cs.length := dropWhile_length_le _ _
      rw [← h.2]
      simp only [List.length_cons]
      omega
    · simp [matchWord1, List.takeWhile_cons, hc] at h

theorem matchChar_length (c : Char) (s r : Str) (h : matchChar c s = some r) :
    r.length < s.length := by
  cases s with
  | nil => simp [matchChar] at h
  | cons x xs =>
    simp only [matchChar] at h
    by_cases hx : x = c
    · rw [if_pos hx] at h
      simp only [Option.some.injEq] at h
      simp [← h]
    · rw [if_neg hx] at h; exact absurd h (by simp)

theorem dropSpaces_length (s : Str) : (dropSpaces s).length ≤ s.length :=
  dropWhile_length_le _ _

theorem findCloseSemi_length (s : Str) (b r : Str) (h : findCloseSemi s = some (b, r)) :
    r.length < s.length := by
  induction s generalizing b with
  | nil => simp [findCloseSemi] at h
  | cons c rest ih =>
    simp only [findCloseSemi] at h
    by_cases hc : c = ')' ∧ rest.head? = some ';'
    · rw [if_pos hc] at h
      simp only [Option.some.injEq, Prod.mk.injEq] at h
      have hr : r.length ≤ rest.length := by
        rw [← h.2]
        cases rest <;> simp
      simp only [List.length_cons]
      omega
    · rw [if_neg hc] at h
      cases hf : findCloseSemi rest with
      | none => rw [hf] at h; exact absurd h (by simp)
      | some p =>
        rw [hf] at h
        simp only [Option.map_some', Option.some.injEq, Prod.mk.injEq] at h
        have hp : findCloseSemi rest = some (p.1, r) := by rw [hf, ← h.2]
        have := ih p.1 hp
        simp only [List.length_cons]
        omega

theorem matchIfNotExists_length (s r : Str) (h : matchIfNotExists s = some r) :
    r.length ≤ s.length := by
  simp only [matchIfNotExists, Option.bind_eq_some] at h
  obtain ⟨s1, h1, s2, h2, s3, h3, s4, h4, s5, h5, h6⟩ := h
  have e1 := matchLitCI_length _ _ _ h1
  have e2 := matchSpaces1_length _ _ h2
  have e3 := matchLitCI_length _ _ _ h3
  have e4 := matchSpaces1_length _ _ h4
  have e5 := matchLitCI_length _ _ _ h5
  have e6 := matchSpaces1_length _ _ h6
  omega

theorem matchNameBody_length (s : Str) (t : Str × Str × Str)
    (h : matchNameBody s = some t) : t.2.2.length < s.length := by
  simp only [matchNameBody, Option.bind_eq_some, Option.some.injEq] at h
  obtain ⟨⟨name, s1⟩, h1, s2, h2, ⟨body, rest⟩, h3, h4⟩ := h
  have e1 := matchWord1_length _ _ _ h1
  have ed : (dropSpaces (name, s1).2).length ≤ s1.length := dropSpaces_length s1
  have e2 := matchChar_length _ _ _ h2
  have e3 := findCloseSemi_length _ _ _ h3
  rw [← h4]
  show rest.length < s.length
  omega

theorem headMatch_length (s : Str) (r : Str × Str × Str) (h : headMatch s = some r) :
    r.2.2.length < s.length := by
  simp only [headMatch, Option.bind_eq_some] at h
  obtain ⟨s1, h1, s2, h2, s3, h3, s4, h4, h5⟩ := h
  have e1 := matchLitCI_length _ _ _ h1
  have e2 := matchSpaces1_length _ _ h2
  have e3 := matchLitCI_length _ _ _ h3
  have e4 := matchSpaces1_length _ _ h4
  cases hi : (matchIfNotExists s4).bind matchNameBody with
  | some r2 =>
    rw [hi] at h5
    simp only [Option.some.injEq] at h5
    subst h5
    simp only [Option.bind_eq_some] at hi
    obtain ⟨s5, hia, hib⟩ := hi
    have e5 := matchIfNotExists_length _ _ hia
    have e6 := matchNameBody_length _ _ hib
    omega
  | none =>
    rw [hi] at h5
    have e6 := matchNameBody_length _ _ h5
    omega

/-- The findall loop of main.py 1147: scan the input left to right for
occurrences of the CREATE TABLE pattern, collecting (table name, body)
captures; scanning resumes after each match, or one character further on
failure. -/
def findBlocks (s : Str) : List (Str × Str) :=
  match hm : headMatch s with
  | some r => (r.1, r.2.1) :: findBlocks r.2.2
  | none =>
    match s with
    | [] => []
    | _ :: tail => findBlocks tail
termination_by s.length
decreasing_by
  · exact headMatch_length s r hm
  · simp

/-- True when the CREATE TABLE pattern matches at no position of the input, so
the findall loop recognizes no block at all. -/
def allPositionsFail : Str → Bool
  | [] => (headMatch []).isNone
  | c :: tail => (headMatch (c :: tail)).isNone && allPositionsFail tail

/-- The FOREIGN KEY test of main.py 1179: upper-cased line starts with the
eleven characters FOREIGN KEY. -/
def startsFK (line : Str) : Bool := (str "FOREIGN KEY").isPrefixOf (upperStr line)

/-- The foreign-key pattern of main.py 1181 attempted at the head of the
input, capturing the column, referenced table and referenced column. -/
def fkMatchAt (s : Str) : Option (Str × Str × Str) :=
  (matchLitCI (str "FOREIGN") s).bind fun s1 =>
  (matchSpaces1 s1).bind fun s2 =>
  (matchLitCI (str "KEY") s2).bind fun s3 =>
  (matchChar '(' (dropSpaces s3)).bind fun s4 =>
  (matchWord1 s4).bind fun p =>
  (matchChar ')' p.2).bind fun s6 =>
  (matchLitCI (str "REFERENCES") (dropSpaces s6)).bind fun s7 =>
  (matchSpaces1 s7).bind fun s8 =>
  (matchWord1 s8).bind fun q =>
  (matchChar '(' (dropSpaces q.2)).bind fun s10 =>
  (matchWord1 s10).bind fun w =>
  (matchChar ')' w.2).bind fun _ =>
  some (p.1, q.1, w.1)

/-- re.search for the foreign-key pattern: first position where it matches. -/
def fkSearch : Str → Option (Str × Str × Str)
  | [] => none
  | c :: rest =>
    match fkMatchAt (c :: rest) with
    | some r => some r
    | none => fkSearch rest

/-- The column pattern of main.py 1192 anchored at the head of the line
(re.match): first word run as the column name, next word run as its type,
anything after ignored. -/
def colMatch (line : Str) : Option (Str × Str) :=
  (matchWord1 line).bind fun p =>
  (matchSpaces1 p.2).bind fun s2 =>
  (matchWord1 s2).bind fun q =>
  some (p.1, q.1)

/-- The definition loop of main.py 1174-1200: strip each definition, skip
empty ones, turn FOREIGN KEY definitions with a well-formed pattern into
relationships of the current table, and other definitions with a name and a
type into attributes and columns; everything else is dropped. -/
def processDefs (tableName : Str) : List Str → (List Str × List (Str × Str) × List Rel)
  | [] => ([], [], [])
  | d :: ds =>
    let acc := processDefs tableName ds
    let line := stripChars d
    if line.isEmpty then acc
    else if startsFK line then
      match fkSearch line with
      | some (fromCol, toTab, toCol) =>
        (acc.1, acc.2.1, ⟨tableName, fromCol, toTab, toCol⟩ :: acc.2.2)
      | none => acc
    else
      match colMatch line with
      | some (n, t) => (n :: acc.1, (n, t) :: acc.2.1, acc.2.2)
      | none => acc

/-- parse_sql_to_schema (main.py 1139-1214): find every CREATE TABLE block,
split each body into definitions at top-level commas, classify the
definitions, and accumulate tables and relationships in encounter order. -/
def parse_sql_to_schema (sql : Str) : ParsedSchema :=
  { tables := (findBlocks sql).map (fun b =>
      { name := b.1
        attributes := (processDefs b.1 (splitDefs b.2)).1
        columns := (processDefs b.1 (splitDefs b.2)).2.1 })
    relationships := (findBlocks sql).flatMap (fun b => (processDefs b.1 (splitDefs b.2)).2.2) }

/-!
## Round-trip support definitions
-/

/-- A usable identifier: nonempty and made of word characters only, the shape
the generator's format contract expects for table, attribute and column
names. -/
def wordName (n : Str) : Bool := !n.isEmpty && n.all isWordChar

/-- Well-formedness of a structured schema for the round trip: every table
name, attribute name and relationship endpoint is a word-character
identifier. -/
def WFSchema (s : Schema) : Bool :=
  s.tables.all (fun t => wordName t.name && t.attributes.all wordName) &&
  s.relationships.all (fun r =>
    wordName r.fromColumn && wordName r.toTable && wordName r.toColumn)

/-- The stripped text of a generated attribute definition: name, inferred
type and constraint keywords, without the indent, comma and newline of the
full line. -/
def attrDef (a : Str) (pk : Bool) : Str :=
  a ++ str " " ++ inferType a ++
  (if pk then str " PRIMARY KEY" else []) ++
  (if containsSub (str "email") (lowerStr a) then str " UNIQUE" else []) ++
  (if containsSub (str "name") (lowerStr a) && !endsWith (str "_id") (lowerStr a)
     then str " NOT NULL" else [])

/-- The stripped text of a generated foreign-key definition. -/
def fkDef (r : Rel) : Str :=
  str "FOREIGN KEY (" ++ r.fromColumn ++ str ") REFERENCES " ++ r.toTable ++
  str "s(" ++ r.toColumn ++ str ")"

/-- The stripped definitions of a generated table body, in order: one per
attribute (with its primary-key flag) followed by one per relationship of
the table. -/
def bodyDefs (attrs : List Str) (hasPK : Bool) (trels : List Rel) : List Str :=
  ((attrs.zip (pkFlags attrs hasPK)).map (fun p => attrDef p.1 p.2)) ++ trels.map fkDef

/-!
## Helper lemmas about the generator's primary-key choice
-/

theorem pkFlags_true (attrs : List Str) : pkFlags attrs true = attrs.map fun _ => false := by
  induction attrs with
  | nil => rfl
  | cons a rest ih => simp [pkFlags, ih]

theorem pkFlags_false_eq_markFirst (attrs : List Str) :
    pkFlags attrs false = markFirst attrs := by
  induction attrs with
  | nil => rfl
  | cons a rest ih =>
    by_cases h : idLike a = true
    · simp [pkFlags, markFirst, h, pkFlags_true]
    · simp only [Bool.not_eq_true] at h
      simp [pkFlags, markFirst, h, ih]

theorem markFirst_count_le_one (attrs : List Str) : (markFirst attrs).count true ≤ 1 := by
  induction attrs with
  | nil => simp [markFirst]
  | cons a rest ih =>
    by_cases h : idLike a = true
    · simp only [markFirst, h, if_true]
      rw [List.count_cons]
      have hz : (List.replicate rest.length false).count true = 0 := by
        simp [List.count_eq_zero, List.eq_of_mem_replicate]
      simp [hz]
    · simp only [Bool.not_eq_true] at h
      simpa [markFirst, h, List.count_cons] using ih

theorem genAttrs_eq_render (attrs : List Str) (hasPK relsNonempty : Bool) :
    genAttrs attrs hasPK relsNonempty =
      renderAttrLines attrs (pkFlags attrs hasPK) relsNonempty := by
  induction attrs generalizing hasPK with
  | nil => rfl
  | cons a rest ih => simp [genAttrs, pkFlags, renderAttrLines, ih]

theorem markFirst_all_false (attrs : List Str) (h : ∀ a ∈ attrs, idLike a = false) :
    markFirst attrs = attrs.map fun _ => false := by
  induction attrs with
  | nil => rfl
  | cons a rest ih =>
    have ha : idLike a = false := h a (List.mem_cons_self a rest)
    simp only [markFirst, ha, Bool.false_eq_true, if_false, List.map_cons]
    exact congrArg _ (ih fun b hb => h b (List.mem_cons_of_mem a hb))

/-- A string whose lower-casing ends in the underscore-i-d suffix cannot also
end in the word name: the two suffixes disagree on the final character. -/
theorem endsWith_uid_not_name (l : Str) (h : endsWith (str "_id") l = true) :
    endsWith (str "name") l = false := by
  have h1 : (str "_id").reverse = ['d', 'i', '_'] := rfl
  have h2 : (str "name").reverse = ['e', 'm', 'a', 'n'] := rfl
  unfold endsWith at h ⊢
  simp only [List.isSuffixOf, h1, h2] at h ⊢
  cases hr : l.reverse with
  | nil => rw [hr] at h; simp [List.isPrefixOf] at h
  | cons c cs =>
    rw [hr] at h
    simp only [List.isPrefixOf, Bool.and_eq_true, beq_iff_eq] at h
    rw [← h.1]
    simp [List.isPrefixOf]

/-!
## Helper lemmas about stripping and the statement splitter
-/

theorem dropWhile_space_ws_append (ws l : Str) (h : ws.all isSpaceChar = true) :
    (ws ++ l).dropWhile isSpaceChar = l.dropWhile isSpaceChar := by
  induction ws with
  | nil => rfl
  | cons c cs ih =>
    simp only [List.all_cons, Bool.and_eq_true] at h
    simp [List.dropWhile_cons, h.1, ih h.2]

theorem dropWhile_space_append_ws (l ws : Str) (hws : ws.all isSpaceChar = true) :
    (l ++ ws).dropWhile isSpaceChar =
      if (l.dropWhile isSpaceChar).isEmpty then [] else l.dropWhile isSpaceChar ++ ws := by
  induction l with
  | nil =>
    have : (ws ++ ([] : Str)).dropWhile isSpaceChar = ([] : Str).dropWhile isSpaceChar :=
      dropWhile_space_ws_append ws [] hws
    simpa using this
  | cons c l' ih =>
    by_cases hc : isSpaceChar c = true
    · simpa [List.dropWhile_cons, hc] using ih
    · simp [List.dropWhile_cons, hc]

theorem stripChars_ws_append (ws l : Str) (h : ws.all isSpaceChar = true) :
    stripChars (ws ++ l) = stripChars l := by
  unfold stripChars
  rw [dropWhile_space_ws_append ws l h]

theorem stripChars_append_ws (l ws : Str) (hws : ws.all isSpaceChar = true) :
    stripChars (l ++ ws) = stripChars l := by
  unfold stripChars
  rw [dropWhile_space_append_ws l ws hws]
  by_cases hd : (l.dropWhile isSpaceChar).isEmpty = true
  · simp [hd, List.isEmpty_iff.mp hd]
  · simp only [hd, if_false, Bool.false_eq_true]
    rw [List.reverse_append]
    rw [dropWhile_space_ws_append ws.reverse _ (by simpa using hws)]

theorem splitOnSemi_ne_nil (s : Str) : splitOnSemi s ≠ [] := by
  cases s with
  | nil => simp [splitOnSemi]
  | cons c rest =>
    simp only [splitOnSemi]
    by_cases h : c = ';'
    · simp [h]
    · simp only [h, if_false]
      cases splitOnSemi rest <;> simp

theorem splitOnSemi_append_semi (x y : Str) :
    splitOnSemi (x ++ ';' :: y) = splitOnSemi x ++ splitOnSemi y := by
  induction x with
  | nil => simp [splitOnSemi]
  | cons c x' ih =>
    by_cases h : c = ';'
    · subst h; simp [splitOnSemi, ih]
    · cases hx : splitOnSemi x' with
      | nil => exact absurd hx (splitOnSemi_ne_nil x')
      | cons f fs => simp [splitOnSemi, h, ih, hx]

theorem splitOnSemi_no_semi (ws : Str) (h : (';' ∈ ws) → False) : splitOnSemi ws = [ws] := by
  induction ws with
  | nil => rfl
  | cons c rest ih =>
    have hc : ¬c = ';' := fun hc => h (hc ▸ List.mem_cons_self c rest)
    simp [splitOnSemi, hc, ih (fun hm => h (List.mem_cons_of_mem c hm))]

theorem splitOnSemi_ws_append (ws s : Str) (h : (';' ∈ ws) → False) :
    splitOnSemi (ws ++ s) = appHead ws (splitOnSemi s) := by
  induction ws with
  | nil =>
    cases hsp : splitOnSemi s with
    | nil => exact absurd hsp (splitOnSemi_ne_nil s)
    | cons f fs => simp [appHead, hsp]
  | cons c ws' ih =>
    have hc : ¬c = ';' := fun hc => h (hc ▸ List.mem_cons_self c ws')
    have ih' := ih (fun hm => h (List.mem_cons_of_mem c hm))
    cases hsp : splitOnSemi s with
    | nil => exact absurd hsp (splitOnSemi_ne_nil s)
    | cons f fs =>
      rw [hsp] at ih'
      simp [splitOnSemi, hc, ih', appHead]

theorem splitOnSemi_append_ws (s ws : Str) (h : (';' ∈ ws) → False) :
    splitOnSemi (s ++ ws) = appLast ws (splitOnSemi s) := by
  induction s with
  | nil => simp [splitOnSemi_no_semi ws h, splitOnSemi, appLast]
  | cons c s' ih =>
    by_cases hc : c = ';'
    · subst hc
      cases hsp : splitOnSemi s' with
      | nil => exact absurd hsp (splitOnSemi_ne_nil s')
      | cons f fs =>
        rw [hsp] at ih
        cases fs <;> simp [splitOnSemi, ih, hsp, appLast]
    · cases hsp : splitOnSemi s' with
      | nil => exact absurd hsp (splitOnSemi_ne_nil s')
      | cons f fs =>
        rw [hsp] at ih
        cases fs <;> simp [splitOnSemi, hc, ih, hsp, appLast]

theorem filter_map_appLast (ws : Str) (hws : ws.all isSpaceChar = true) (l : List Str)
    (hl : l ≠ []) :
    ((appLast ws l).map stripChars).filter (fun f => !f.isEmpty) =
      (l.map stripChars).filter (fun f => !f.isEmpty) := by
  induction l with
  | nil => exact absurd rfl hl
  | cons f fs ih =>
    cases fs with
    | nil => simp [appLast, stripChars_append_ws f ws hws]
    | cons g gs =>
      simp only [appLast, List.map_cons, List.filter_cons]
      rw [show appLast ws (g :: gs) = (appLast ws (g :: gs)) from rfl] at *
      have := ih (by simp)
      simp only [List.map_cons, List.filter_cons] at this
      rw [this]

/-!
## Helper lemmas about the body splitter
-/

theorem scanBal_cons (d : Int) (c : Char) (v : Str) :
    scanBal d (c :: v) = scanBal (parenStep d c) v := rfl

theorem parenStep_plain (d : Int) (c : Char) (h : plainChar c = true) : parenStep d c = d := by
  simp only [plainChar, Bool.not_eq_true', Bool.or_eq_false_iff, decide_eq_false_iff_not] at h
  simp [parenStep, h.1.2, h.2]

theorem scanBal_plain (u : Str) (h : u.all plainChar = true) (d : Int) : scanBal d u = d := by
  induction u generalizing d with
  | nil => rfl
  | cons c u' ih =>
    simp only [List.all_cons, Bool.and_eq_true] at h
    rw [scanBal_cons, parenStep_plain d c h.1, ih h.2]

theorem splitDefsAux_step (cur : Str) (d : Int) (c : Char) (t : Str) (hc : c ≠ ',') :
    splitDefsAux cur d (c :: t) = splitDefsAux (cur ++ [c]) (parenStep d c) t := by
  by_cases h1 : c = '('
  · simp [splitDefsAux, parenStep, h1]
  · by_cases h2 : c = ')'
    · simp [splitDefsAux, parenStep, h1, h2]
    · simp [splitDefsAux, parenStep, h1, h2, hc]

theorem splitDefsAux_step_comma (cur : Str) (d : Int) (t : Str) (hd : d ≠ 0) :
    splitDefsAux cur d (',' :: t) = splitDefsAux (cur ++ [',']) d t := by
  simp [splitDefsAux, hd, show (',' : Char) ≠ '(' by decide, show (',' : Char) ≠ ')' by decide]

theorem splitDefsAux_cut (cur t : Str) :
    splitDefsAux cur 0 (',' :: t) =
      (if (stripChars cur).isEmpty then [] else [stripChars cur]) ++ splitDefsAux [] 0 t := by
  simp [splitDefsAux, show (',' : Char) ≠ '(' by decide, show (',' : Char) ≠ ')' by decide]

theorem splitDefsAux_commaFree (ch : Str) (h : (',' ∈ ch) → False) (cur : Str) (d : Int)
    (rest : Str) :
    splitDefsAux cur d (ch ++ rest) = splitDefsAux (cur ++ ch) (scanBal d ch) rest := by
  induction ch generalizing cur d with
  | nil => simp [scanBal]
  | cons c ch' ih =>
    have hc : c ≠ ',' := fun hc => h (hc ▸ List.mem_cons_self c ch')
    rw [List.cons_append, splitDefsAux_step cur d c _ hc,
        ih (fun hm => h (List.mem_cons_of_mem c hm)), scanBal_cons]
    simp

theorem splitDefsAux_commaFree_end (ch : Str) (h : (',' ∈ ch) → False) (cur : Str)
    (d : Int) :
    splitDefsAux cur d ch =
      if (stripChars (cur ++ ch)).isEmpty then [] else [stripChars (cur ++ ch)] := by
  have hx := splitDefsAux_commaFree ch h cur d []
  rw [List.append_nil] at hx
  rw [hx]
  rfl

theorem splitDefsAux_inner (v : Str) (cur : Str) (d : Int) (rest : Str)
    (h : innerOK d v = true) :
    splitDefsAux cur d (v ++ rest) = splitDefsAux (cur ++ v) (scanBal d v) rest := by
  induction v generalizing cur d with
  | nil => simp [scanBal]
  | cons c v' ih =>
    simp only [innerOK, Bool.and_eq_true, decide_eq_true_eq] at h
    obtain ⟨h1, h2⟩ := h
    by_cases hc : c = ','
    · subst hc
      have hp : parenStep d ',' = d := by
        simp [parenStep, show (',' : Char) ≠ '(' by decide, show (',' : Char) ≠ ')' by decide]
      rw [hp] at h1 h2
      rw [List.cons_append, splitDefsAux_step_comma cur d _ (by omega), ih _ _ h2,
          scanBal_cons, hp]
      simp
    · rw [List.cons_append, splitDefsAux_step cur d c _ hc, ih _ _ h2, scanBal_cons]
      simp

/-!
## Helper lemmas about the parser
-/

theorem takeWhile_all (p : Char → Bool) (l : Str) (h : l.all p = true) :
    l.takeWhile p = l := by
  induction l with
  | nil => rfl
  | cons c cs ih =>
    simp only [List.all_cons, Bool.and_eq_true] at h
    simp [List.takeWhile_cons, h.1, ih h.2]

theorem dropWhile_all (p : Char → Bool) (l : Str) (h : l.all p = true) :
    l.dropWhile p = [] := by
  induction l with
  | nil => rfl
  | cons c cs ih =>
    simp only [List.all_cons, Bool.and_eq_true] at h
    simp [List.dropWhile_cons, h.1, ih h.2]

theorem matchWord1_fst_ne (s w r : Str) (h : matchWord1 s = some (w, r)) : w ≠ [] := by
  simp only [matchWord1] at h
  by_cases he : (s.takeWhile isWordChar).isEmpty = true
  · simp [he] at h
  · rw [if_neg (by simp [he])] at h
    simp only [Option.some.injEq, Prod.mk.injEq] at h
    rw [← h.1]
    intro hx
    exact he (by rw [hx]; rfl)

theorem colMatch_nonempty (line n t : Str) (h : colMatch line = some (n, t)) :
    n ≠ [] ∧ t ≠ [] := by
  simp only [colMatch, Option.bind_eq_some, Option.some.injEq] at h
  obtain ⟨⟨name, s1⟩, h1, s2, h2, ⟨ty, s3⟩, h3, h4⟩ := h
  have hn := matchWord1_fst_ne _ _ _ h1
  have ht := matchWord1_fst_ne _ _ _ h3
  have h5 : name = n ∧ ty = t := by
    constructor
    · exact congrArg Prod.fst h4
    · exact congrArg Prod.snd h4
  rw [← h5.1, ← h5.2]
  exact ⟨hn, ht⟩

theorem colMatch_all_word_none (line : Str) (hne : line ≠ [])
    (hw : line.all isWordChar = true) : colMatch line = none := by
  cases line with
  | nil => exact absurd rfl hne
  | cons c cs =>
    have ht : (c :: cs).takeWhile isWordChar = c :: cs := takeWhile_all _ _ hw
    have hd : (c :: cs).dropWhile isWordChar = [] := dropWhile_all _ _ hw
    simp [colMatch, matchWord1, ht, hd, matchSpaces1]

theorem findBlocks_nil_of_fail (s : Str) (h : allPositionsFail s = true) :
    findBlocks s = [] := by
  induction s with
  | nil =>
    simp only [allPositionsFail, Option.isNone_iff_eq_none] at h
    rw [findBlocks.eq_def]
    split
    · rename_i r heq
      rw [h] at heq
      simp at heq
    · rfl
  | cons c tail ih =>
    simp only [allPositionsFail, Bool.and_eq_true, Option.isNone_iff_eq_none] at h
    rw [findBlocks.eq_def]
    split
    · rename_i r heq
      rw [h.1] at heq
      simp at heq
    · exact ih h.2

/-!
## Helper lemmas for the round trip: character classes and stripping
-/

theorem word_not_space (c : Char) (h : isWordChar c = true) : isSpaceChar c = false := by
  simp only [isWordChar, Bool.or_eq_true, Bool.and_eq_true, decide_eq_true_eq] at h
  by_contra hs
  simp only [Bool.not_eq_false, isSpaceChar, Bool.or_eq_true, decide_eq_true_eq] at hs
  rcases hs with ((((h1 | h1) | h1) | h1) | h1) | h1 <;> subst h1 <;> revert h <;> decide

theorem word_toUpper_not_space (c : Char) (h : isWordChar c = true) :
    isSpaceChar c.toUpper = false := by
  simp only [Char.toUpper]
  by_cases hr : 97 ≤ c.toNat ∧ c.toNat ≤ 122
  · rw [if_pos hr]
    obtain ⟨h1, h2⟩ := hr
    set n := c.toNat with hn
    interval_cases n <;> decide
  · rw [if_neg hr]
    exact word_not_space c h

theorem takeWhile_append_all (p : Char → Bool) (n X : Str) (h : n.all p = true) :
    (n ++ X).takeWhile p = n ++ X.takeWhile p := by
  induction n with
  | nil => rfl
  | cons c cs ih =>
    simp only [List.all_cons, Bool.and_eq_true] at h
    simp [List.takeWhile_cons, h.1, ih h.2]

theorem dropWhile_append_all (p : Char → Bool) (n X : Str) (h : n.all p = true) :
    (n ++ X).dropWhile p = X.dropWhile p := by
  induction n with
  | nil => rfl
  | cons c cs ih =>
    simp only [List.all_cons, Bool.and_eq_true] at h
    simp [List.dropWhile_cons, h.1, ih h.2]

theorem mem_if_nil {c : Char} {b : Prop} [Decidable b] {L : Str}
    (h : c ∈ if b then L else []) : c ∈ L := by
  split at h
  · exact h
  · cases h

theorem mem_if_nil2 {c : Char} {b : Prop} [Decidable b] {L : Str}
    (h : c ∈ if b then [] else L) : c ∈ L := by
  split at h
  · cases h
  · exact h

theorem inferType_cases (a : Str) :
    inferType a = str "INTEGER" ∨ inferType a = str "DATE" ∨ inferType a = str "TEXT" := by
  unfold inferType
  dsimp only
  split
  · exact Or.inl rfl
  · split
    · exact Or.inr (Or.inl rfl)
    · split
      · exact Or.inl rfl
      · split
        · exact Or.inl rfl
        · exact Or.inr (Or.inr rfl)

theorem inferType_chars (a : Str) (c : Char) (h : c ∈ inferType a) :
    isWordChar c = true := by
  rcases inferType_cases a with ht | ht | ht <;> rw [ht] at h
  · have hall : (str "INTEGER").all isWordChar = true := by decide
    exact List.all_eq_true.mp hall c h
  · have hall : (str "DATE").all isWordChar = true := by decide
    exact List.all_eq_true.mp hall c h
  · have hall : (str "TEXT").all isWordChar = true := by decide
    exact List.all_eq_true.mp hall c h

theorem attrDef_chars (a : Str) (pk : Bool) (ha : a.all isWordChar = true) (c : Char)
    (h : c ∈ attrDef a pk) : (isWordChar c || isSpaceChar c) = true := by
  simp only [attrDef, List.append_assoc, List.mem_append] at h
  rcases h with h | h | h | h | h | h
  · simp [List.all_eq_true.mp ha c h]
  · have hall : (str " ").all (fun x => isWordChar x || isSpaceChar x) = true := by decide
    exact List.all_eq_true.mp hall c h
  · simp [inferType_chars a c h]
  · have hall : (str " PRIMARY KEY").all (fun x => isWordChar x || isSpaceChar x) = true := by
      decide
    exact List.all_eq_true.mp hall c (mem_if_nil h)
  · have hall : (str " UNIQUE").all (fun x => isWordChar x || isSpaceChar x) = true := by decide
    exact List.all_eq_true.mp hall c (mem_if_nil h)
  · have hall : (str " NOT NULL").all (fun x => isWordChar x || isSpaceChar x) = true := by
      decide
    exact List.all_eq_true.mp hall c (mem_if_nil h)

theorem fkDef_chars (r : Rel) (hc : r.fromColumn.all isWordChar = true)
    (ht : r.toTable.all isWordChar = true) (hc2 : r.toColumn.all isWordChar = true)
    (c : Char) (h : c ∈ fkDef r) :
    (isWordChar c || isSpaceChar c || c = '(' || c = ')') = true := by
  simp only [fkDef, List.append_assoc, List.mem_append] at h
  have k1 : (str "FOREIGN KEY (").all
      (fun x => isWordChar x || isSpaceChar x || x = '(' || x = ')') = true := by decide
  have k2 : (str ") REFERENCES ").all
      (fun x => isWordChar x || isSpaceChar x || x = '(' || x = ')') = true := by decide
  have k3 : (str "s(").all
      (fun x => isWordChar x || isSpaceChar x || x = '(' || x = ')') = true := by decide
  have k4 : (str ")").all
      (fun x => isWordChar x || isSpaceChar x || x = '(' || x = ')') = true := by decide
  rcases h with h | h | h | h | h | h | h
  · exact List.all_eq_true.mp k1 c h
  · simp [List.all_eq_true.mp hc c h]
  · exact List.all_eq_true.mp k2 c h
  · simp [List.all_eq_true.mp ht c h]
  · exact List.all_eq_true.mp k3 c h
  · simp [List.all_eq_true.mp hc2 c h]
  · exact List.all_eq_true.mp k4 c h

theorem parenStep_notParen (d : Int) (c : Char) (h1 : c ≠ '(') (h2 : c ≠ ')') :
    parenStep d c = d := by
  simp [parenStep, h1, h2]

theorem wordspace_not_paren (c : Char) (h : (isWordChar c || isSpaceChar c) = true) :
    c ≠ '(' ∧ c ≠ ')' ∧ c ≠ ',' ∧ c ≠ ';' := by
  refine ⟨?_, ?_, ?_, ?_⟩ <;> intro he <;> subst he <;> revert h <;> decide

theorem scanBal_charsOK (l : Str) (h : ∀ c ∈ l, (isWordChar c || isSpaceChar c) = true)
    (d : Int) : scanBal d l = d := by
  induction l generalizing d with
  | nil => rfl
  | cons c cs ih =>
    have hc := wordspace_not_paren c (h c (List.mem_cons_self c cs))
    rw [scanBal_cons, parenStep_notParen d c hc.1 hc.2.1]
    exact ih (fun x hx => h x (List.mem_cons_of_mem c hx)) d

theorem scanBal_append (d : Int) (x y : Str) :
    scanBal d (x ++ y) = scanBal (scanBal d x) y := List.foldl_append _ _ _ _

theorem head?_append_ne (x y : Str) (h : x ≠ []) : (x ++ y).head? = x.head? := by
  cases x with
  | nil => exact absurd rfl h
  | cons c cs => rfl

theorem lastOK_append {P : Char → Prop} (x y : Str) (hx : ∀ c, x.getLast? = some c → P c)
    (hy : ∀ c, y.getLast? = some c → P c) : ∀ c, (x ++ y).getLast? = some c → P c := by
  intro c hc
  cases hny : y with
  | nil => rw [hny, List.append_nil] at hc; exact hx c hc
  | cons d ds =>
    rw [List.getLast?_append_of_ne_nil x (by simp [hny])] at hc
    exact hy c (hny ▸ hc)

theorem lastOK_append_right {P : Char → Prop} (x y : Str) (hy0 : y ≠ [])
    (hy : ∀ c, y.getLast? = some c → P c) : ∀ c, (x ++ y).getLast? = some c → P c := by
  intro c hc
  rw [List.getLast?_append_of_ne_nil x hy0] at hc
  exact hy c hc

theorem lastOK_if {P : Char → Prop} {b : Prop} [Decidable b] (L : Str)
    (hL : ∀ c, L.getLast? = some c → P c) :
    ∀ c, (if b then L else []).getLast? = some c → P c := by
  intro c hc
  split at hc
  · exact hL c hc
  · simp at hc

theorem dropSpaces_keep (l : Str) (h : ∀ c, l.head? = some c → isSpaceChar c = false) :
    l.dropWhile isSpaceChar = l := by
  cases l with
  | nil => rfl
  | cons c cs => simp [List.dropWhile_cons, h c rfl]

theorem stripChars_eq_self (l : Str) (h1 : ∀ c, l.head? = some c → isSpaceChar c = false)
    (h2 : ∀ c, l.getLast? = some c → isSpaceChar c = false) : stripChars l = l := by
  unfold stripChars
  rw [dropSpaces_keep l h1]
  rw [dropSpaces_keep l.reverse (fun c hc => h2 c (by rw [← List.head?_reverse]; exact hc))]
  exact List.reverse_reverse l

theorem stripChars_line (D : Str) (h1 : ∀ c, D.head? = some c → isSpaceChar c = false)
    (h2 : ∀ c, D.getLast? = some c → isSpaceChar c = false) :
    stripChars ('\n' :: (str "  " ++ D)) = D := by
  unfold stripChars
  have hd : ('\n' :: (str "  " ++ D)).dropWhile isSpaceChar = D := by
    have e : '\n' :: (str "  " ++ D) = ('\n' :: str "  ") ++ D := rfl
    rw [e, dropWhile_append_all isSpaceChar _ D (by decide)]
    exact dropSpaces_keep D h1
  rw [hd]
  rw [dropSpaces_keep D.reverse (fun c hc => h2 c (by rw [← List.head?_reverse]; exact hc))]
  exact List.reverse_reverse D

theorem attrDef_head (a : Str) (pk : Bool) (ha : wordName a = true) :
    ∀ c, (attrDef a pk).head? = some c → isSpaceChar c = false := by
  intro c hc
  simp only [wordName, Bool.and_eq_true, Bool.not_eq_true', List.isEmpty_eq_false] at ha
  cases hna : a with
  | nil => exact absurd hna ha.1
  | cons x xs =>
    rw [show attrDef a pk = a ++ (str " " ++ inferType a ++
      (if pk = true then str " PRIMARY KEY" else []) ++
      (if containsSub (str "email") (lowerStr a) = true then str " UNIQUE" else []) ++
      (if (containsSub (str "name") (lowerStr a) && !endsWith (str "_id") (lowerStr a)) = true
        then str " NOT NULL" else [])) from by simp [attrDef]] at hc
    rw [head?_append_ne a _ ha.1, hna] at hc
    simp only [List.head?_cons, Option.some.injEq] at hc
    subst hc
    exact word_not_space _ (List.all_eq_true.mp ha.2 _ (hna ▸ List.mem_cons_self x xs))

theorem inferType_ne_nil (a : Str) : inferType a ≠ [] := by
  rcases inferType_cases a with ht | ht | ht <;> rw [ht] <;> decide

theorem inferType_last (a : Str) :
    ∀ c, (inferType a).getLast? = some c → isSpaceChar c = false := by
  intro c hc
  rcases inferType_cases a with ht | ht | ht <;> rw [ht] at hc
  · rw [(by decide : (str "INTEGER").getLast? = some 'R')] at hc
    simp only [Option.some.injEq] at hc; subst hc; decide
  · rw [(by decide : (str "DATE").getLast? = some 'E')] at hc
    simp only [Option.some.injEq] at hc; subst hc; decide
  · rw [(by decide : (str "TEXT").getLast? = some 'T')] at hc
    simp only [Option.some.injEq] at hc; subst hc; decide

theorem attrDef_last (a : Str) (pk : Bool) :
    ∀ c, (attrDef a pk).getLast? = some c → isSpaceChar c = false := by
  unfold attrDef
  refine lastOK_append _ _ (lastOK_append _ _ (lastOK_append _ _ ?_ ?_) ?_) ?_
  · exact lastOK_append_right _ _ (inferType_ne_nil a) (inferType_last a)
  · exact lastOK_if _ (by decide)
  · exact lastOK_if _ (by decide)
  · exact lastOK_if _ (by decide)

theorem fkDef_head (r : Rel) :
    ∀ c, (fkDef r).head? = some c → isSpaceChar c = false := by
  intro c hc
  unfold fkDef at hc
  simp only [List.append_assoc] at hc
  rw [head?_append_ne _ _ (by decide)] at hc
  rw [show (str "FOREIGN KEY (").head? = some 'F' from rfl] at hc
  simp only [Option.some.injEq] at hc
  subst hc
  decide

theorem fkDef_last (r : Rel) :
    ∀ c, (fkDef r).getLast? = some c → isSpaceChar c = false := by
  unfold fkDef
  exact lastOK_append_right _ _ (by decide) (by decide)

/-!
## Helper lemmas for the round trip: matching the generated text
-/

theorem findCloseSemi_append (b r : Str) (h : (';' ∈ b) → False) :
    findCloseSemi (b ++ ')' :: ';' :: r) = some (b, r) := by
  induction b with
  | nil => rfl
  | cons c b' ih =>
    have hc : ¬(c = ')' ∧ (b' ++ ')' :: ';' :: r).head? = some ';') := by
      rintro ⟨hc1, hc2⟩
      cases hb : b' with
      | nil => rw [hb] at hc2; simp at hc2
      | cons d ds =>
        rw [hb] at hc2
        simp only [List.cons_append, List.head?_cons, Option.some.injEq] at hc2
        exact h (by rw [hb, ← hc2]; exact List.mem_cons_of_mem c (List.mem_cons_self d ds))
    simp only [List.cons_append, findCloseSemi, List.append_eq, if_neg hc,
      ih (fun hm => h (List.mem_cons_of_mem c hm)), Option.map_some']

theorem matchIfNotExists_gen (R : Str) (hR : ∀ c, R.head? = some c → isSpaceChar c = false) :
    matchIfNotExists (str "IF NOT EXISTS " ++ R) = some R := by
  have e1 : matchLitCI (str "IF") (str "IF NOT EXISTS " ++ R)
      = some (str " NOT EXISTS " ++ R) := rfl
  have e2 : matchSpaces1 (str " NOT EXISTS " ++ R) = some (str "NOT EXISTS " ++ R) := rfl
  have e3 : matchLitCI (str "NOT") (str "NOT EXISTS " ++ R) = some (str " EXISTS " ++ R) := rfl
  have e4 : matchSpaces1 (str " EXISTS " ++ R) = some (str "EXISTS " ++ R) := rfl
  have e5 : matchLitCI (str "EXISTS") (str "EXISTS " ++ R) = some (str " " ++ R) := rfl
  have e6 : matchSpaces1 (str " " ++ R) = some R := by
    show (if isSpaceChar ' ' = true then some (R.dropWhile isSpaceChar) else none) = some R
    rw [if_pos (by decide), dropSpaces_keep R hR]
  simp only [matchIfNotExists, e1, Option.some_bind, e2, e3, e4, e5, e6]

theorem headMatch_gen (name inner tail : Str) (hn : name.all isWordChar = true)
    (hsemi : (';' ∈ inner) → False) :
    headMatch (str "CREATE TABLE IF NOT EXISTS " ++
        (name ++ ('s' :: ' ' :: '(' :: (inner ++ ')' :: ';' :: tail)))) =
      some (name ++ ['s'], (inner, tail)) := by
  have e1 : matchLitCI (str "CREATE") (str "CREATE TABLE IF NOT EXISTS " ++
      (name ++ ('s' :: ' ' :: '(' :: (inner ++ ')' :: ';' :: tail)))) =
      some (str " TABLE IF NOT EXISTS " ++
        (name ++ ('s' :: ' ' :: '(' :: (inner ++ ')' :: ';' :: tail)))) := rfl
  have e2 : matchSpaces1 (str " TABLE IF NOT EXISTS " ++
      (name ++ ('s' :: ' ' :: '(' :: (inner ++ ')' :: ';' :: tail)))) =
      some (str "TABLE IF NOT EXISTS " ++
        (name ++ ('s' :: ' ' :: '(' :: (inner ++ ')' :: ';' :: tail)))) := rfl
  have e3 : matchLitCI (str "TABLE") (str "TABLE IF NOT EXISTS " ++
      (name ++ ('s' :: ' ' :: '(' :: (inner ++ ')' :: ';' :: tail)))) =
      some (str " IF NOT EXISTS " ++
        (name ++ ('s' :: ' ' :: '(' :: (inner ++ ')' :: ';' :: tail)))) := rfl
  have e4 : matchSpaces1 (str " IF NOT EXISTS " ++
      (name ++ ('s' :: ' ' :: '(' :: (inner ++ ')' :: ';' :: tail)))) =
      some (str "IF NOT EXISTS " ++
        (name ++ ('s' :: ' ' :: '(' :: (inner ++ ')' :: ';' :: tail)))) := rfl
  have hRhead : ∀ c, (name ++ ('s' :: ' ' :: '(' :: (inner ++ ')' :: ';' :: tail))).head? =
      some c → isSpaceChar c = false := by
    intro c hc
    cases hna : name with
    | nil =>
      rw [hna] at hc
      simp only [List.nil_append, List.head?_cons, Option.some.injEq] at hc
      subst hc; decide
    | cons x xs =>
      rw [hna] at hc
      simp only [List.cons_append, List.head?_cons, Option.some.injEq] at hc
      subst hc
      exact word_not_space _ (List.all_eq_true.mp hn _ (hna ▸ List.mem_cons_self x xs))
  have e5 := matchIfNotExists_gen _ hRhead
  have e6 : matchNameBody (name ++ ('s' :: ' ' :: '(' :: (inner ++ ')' :: ';' :: tail))) =
      some (name ++ ['s'], (inner, tail)) := by
    have hw : matchWord1 (name ++ ('s' :: ' ' :: '(' :: (inner ++ ')' :: ';' :: tail))) =
        some (name ++ ['s'], ' ' :: '(' :: (inner ++ ')' :: ';' :: tail)) := by
      unfold matchWord1
      rw [takeWhile_append_all isWordChar name _ hn,
          dropWhile_append_all isWordChar name _ hn]
      rw [show ('s' :: ' ' :: '(' :: (inner ++ ')' :: ';' :: tail)).takeWhile isWordChar
            = ['s'] from rfl,
          show ('s' :: ' ' :: '(' :: (inner ++ ')' :: ';' :: tail)).dropWhile isWordChar
            = ' ' :: '(' :: (inner ++ ')' :: ';' :: tail) from rfl]
      rw [if_neg (by cases name <;> simp)]
    have hdrop : dropSpaces (' ' :: '(' :: (inner ++ ')' :: ';' :: tail)) =
        '(' :: (inner ++ ')' :: ';' :: tail) := rfl
    have hch : matchChar '(' ('(' :: (inner ++ ')' :: ';' :: tail)) =
        some (inner ++ ')' :: ';' :: tail) := rfl
    have hfc := findCloseSemi_append inner tail hsemi
    simp only [matchNameBody, hw, Option.some_bind, hdrop, hch, hfc]
  simp only [headMatch, e1, Option.some_bind, e2, e3, e4]
  rw [show (matchIfNotExists (str "IF NOT EXISTS " ++
      (name ++ ('s' :: ' ' :: '(' :: (inner ++ ')' :: ';' :: tail))))).bind matchNameBody =
      some (name ++ ['s'], (inner, tail)) from by rw [e5, Option.some_bind, e6]]

/-!
## Helper lemmas for the round trip: splitting a generated body
-/

theorem genFKs_cons (r : Rel) (rest : List Rel) :
    genFKs (r :: rest) = (str "  " ++ fkDef r) ++
      ((if rest.isEmpty then [] else str ",") ++ ('\n' :: genFKs rest)) := by
  have e : str "  FOREIGN KEY (" = str "  " ++ str "FOREIGN KEY (" := rfl
  simp only [genFKs, fkDef, e, List.append_assoc]
  rfl

theorem attrLine_decomp (a : Str) (pk isLast rne : Bool) :
    attrLine a pk isLast rne = (str "  " ++ attrDef a pk) ++
      ((if !isLast || rne then str "," else []) ++ str "\n") := by
  simp only [attrLine, attrDef, List.append_assoc]

theorem scanBal_word (l : Str) (h : l.all isWordChar = true) (d : Int) : scanBal d l = d :=
  scanBal_charsOK l (fun c hc => by simp [List.all_eq_true.mp h c hc]) d

theorem scanBal_fkDef (r : Rel) (h1 : r.fromColumn.all isWordChar = true)
    (h2 : r.toTable.all isWordChar = true) (h3 : r.toColumn.all isWordChar = true)
    (d : Int) : scanBal d (fkDef r) = d := by
  unfold fkDef
  simp only [scanBal_append]
  rw [show ∀ e : Int, scanBal e (str "FOREIGN KEY (") = e + 1 from fun e => rfl,
      scanBal_word _ h1,
      show ∀ e : Int, scanBal e (str ") REFERENCES ") = e - 1 from fun e => rfl,
      scanBal_word _ h2,
      show ∀ e : Int, scanBal e (str "s(") = e + 1 from fun e => rfl,
      scanBal_word _ h3,
      show ∀ e : Int, scanBal e (str ")") = e - 1 from fun e => rfl]
  omega

theorem attrChunk_commaFree (a : Str) (pk : Bool) (ha : a.all isWordChar = true) :
    (',' ∈ '\n' :: (str "  " ++ attrDef a pk)) → False := by
  intro hm
  simp only [List.mem_cons, List.mem_append] at hm
  rcases hm with hm | hm | hm
  · exact absurd hm (by decide)
  · revert hm; decide
  · have := attrDef_chars a pk ha ',' hm
    exact absurd this (by decide)

theorem attrChunk_bal (a : Str) (pk : Bool) (ha : a.all isWordChar = true) :
    scanBal 0 ('\n' :: (str "  " ++ attrDef a pk)) = 0 := by
  rw [scanBal_cons, parenStep_notParen _ _ (by decide) (by decide), scanBal_append]
  rw [show scanBal 0 (str "  ") = 0 from rfl]
  exact scanBal_charsOK _ (attrDef_chars a pk ha) 0

theorem fkChunk_commaFree (r : Rel) (h1 : r.fromColumn.all isWordChar = true)
    (h2 : r.toTable.all isWordChar = true) (h3 : r.toColumn.all isWordChar = true) :
    (',' ∈ '\n' :: (str "  " ++ fkDef r)) → False := by
  intro hm
  simp only [List.mem_cons, List.mem_append] at hm
  rcases hm with hm | hm | hm
  · exact absurd hm (by decide)
  · revert hm; decide
  · have := fkDef_chars r h1 h2 h3 ',' hm
    exact absurd this (by decide)

theorem fkChunk_bal (r : Rel) (h1 : r.fromColumn.all isWordChar = true)
    (h2 : r.toTable.all isWordChar = true) (h3 : r.toColumn.all isWordChar = true) :
    scanBal 0 ('\n' :: (str "  " ++ fkDef r)) = 0 := by
  rw [scanBal_cons, parenStep_notParen _ _ (by decide) (by decide), scanBal_append]
  rw [show scanBal 0 (str "  ") = 0 from rfl]
  exact scanBal_fkDef r h1 h2 h3 0

theorem endTail_nl (CUR : Str) :
    splitDefsAux CUR 0 ['\n'] =
      if (stripChars CUR).isEmpty then [] else [stripChars CUR] := by
  rw [show (['\n'] : Str) = '\n' :: [] from rfl,
      splitDefsAux_step CUR 0 '\n' [] (by decide),
      parenStep_notParen 0 '\n' (by decide) (by decide)]
  show (if (stripChars (CUR ++ ['\n'])).isEmpty then [] else [stripChars (CUR ++ ['\n'])]) = _
  rw [stripChars_append_ws CUR ['\n'] (by decide)]

theorem attrStrip (a : Str) (pk : Bool) (ha : wordName a = true) :
    stripChars ('\n' :: (str "  " ++ attrDef a pk)) = attrDef a pk :=
  stripChars_line _ (attrDef_head a pk ha) (attrDef_last a pk)

theorem attrDef_isEmpty_false (a : Str) (pk : Bool) (ha : wordName a = true) :
    (attrDef a pk).isEmpty = false := by
  have hne : a ≠ [] := by
    simp only [wordName, Bool.and_eq_true, Bool.not_eq_true', List.isEmpty_eq_false] at ha
    exact ha.1
  cases hna : a with
  | nil => exact absurd hna hne
  | cons c cs =>
    subst hna
    simp [attrDef]

theorem fkStrip (r : Rel) :
    stripChars ('\n' :: (str "  " ++ fkDef r)) = fkDef r :=
  stripChars_line _ (fkDef_head r) (fkDef_last r)

theorem fkDef_isEmpty_false (r : Rel) : (fkDef r).isEmpty = false := by
  rw [show fkDef r = 'F' :: (str "OREIGN KEY (" ++ r.fromColumn ++ str ") REFERENCES " ++
    r.toTable ++ str "s(" ++ r.toColumn ++ str ")") from by simp [fkDef]; rfl]
  rfl

theorem wordName_parts (r : Rel)
    (h : (wordName r.fromColumn && wordName r.toTable && wordName r.toColumn) = true) :
    r.fromColumn.all isWordChar = true ∧ r.toTable.all isWordChar = true ∧
      r.toColumn.all isWordChar = true := by
  simp only [Bool.and_eq_true, wordName] at h
  exact ⟨h.1.1.2, h.1.2.2, h.2.2⟩

theorem splitFK (trels : List Rel)
    (hw : trels.all (fun r => wordName r.fromColumn && wordName r.toTable &&
      wordName r.toColumn) = true) :
    splitDefsAux [] 0 ('\n' :: genFKs trels) = trels.map fkDef := by
  induction trels with
  | nil =>
    rw [show genFKs [] = [] from rfl, show ('\n' :: ([] : Str)) = [('\n' : Char)] from rfl,
        endTail_nl]
    simp [stripChars]
  | cons r rest ih =>
    rw [List.all_cons, Bool.and_eq_true] at hw
    obtain ⟨hwr, hwrest⟩ := hw
    obtain ⟨h1, h2, h3⟩ := wordName_parts r hwr
    have hst := fkStrip r
    rw [genFKs_cons,
        show ('\n' :: ((str "  " ++ fkDef r) ++
            ((if rest.isEmpty then [] else str ",") ++ ('\n' :: genFKs rest)))) =
          ('\n' :: (str "  " ++ fkDef r)) ++
            ((if rest.isEmpty then [] else str ",") ++ ('\n' :: genFKs rest)) from rfl,
        splitDefsAux_commaFree _ (fkChunk_commaFree r h1 h2 h3) [] 0 _,
        fkChunk_bal r h1 h2 h3, List.nil_append]
    cases rest with
    | nil =>
      rw [show ((if ([] : List Rel).isEmpty then ([] : Str) else str ",") ++
            ('\n' :: genFKs [])) = [('\n' : Char)] from rfl,
          endTail_nl, hst]
      simp [fkDef_isEmpty_false r]
    | cons r2 rest2 =>
      rw [show ((if (r2 :: rest2).isEmpty then ([] : Str) else str ",") ++
            ('\n' :: genFKs (r2 :: rest2))) = ',' :: ('\n' :: genFKs (r2 :: rest2)) from rfl,
          splitDefsAux_cut, hst]
      rw [ih hwrest]
      simp [fkDef_isEmpty_false r]

theorem splitAttrs (attrs : List Str) (trels : List Rel) (rne : Bool)
    (hwa : attrs.all wordName = true)
    (hwr : trels.all (fun r => wordName r.fromColumn && wordName r.toTable &&
      wordName r.toColumn) = true)
    (hcons : rne = false → trels = []) :
    ∀ hasPK : Bool,
    splitDefsAux [] 0 ('\n' :: (genAttrs attrs hasPK rne ++ genFKs trels)) =
      ((attrs.zip (pkFlags attrs hasPK)).map fun p => attrDef p.1 p.2) ++
        trels.map fkDef := by
  induction attrs with
  | nil =>
    intro hasPK
    rw [show genAttrs [] hasPK rne = [] from rfl, List.nil_append,
        show pkFlags [] hasPK = [] from rfl]
    simp only [List.zip_nil_right, List.map_nil, List.nil_append]
    exact splitFK trels hwr
  | cons a rest ih =>
    intro hasPK
    rw [List.all_cons, Bool.and_eq_true] at hwa
    obtain ⟨hna, hnrest⟩ := hwa
    have hnaw : a.all isWordChar = true := by
      simp only [wordName, Bool.and_eq_true] at hna
      exact hna.2
    rw [show genAttrs (a :: rest) hasPK rne =
        attrLine a (!hasPK && idLike a) rest.isEmpty rne ++
          genAttrs rest (hasPK || (!hasPK && idLike a)) rne from rfl,
        attrLine_decomp]
    rw [show ('\n' :: (((str "  " ++ attrDef a (!hasPK && idLike a)) ++
          ((if !rest.isEmpty || rne then str "," else []) ++ str "\n")) ++
          genAttrs rest (hasPK || (!hasPK && idLike a)) rne ++ genFKs trels)) =
        ('\n' :: (str "  " ++ attrDef a (!hasPK && idLike a))) ++
          ((if !rest.isEmpty || rne then str "," else []) ++
            ('\n' :: (genAttrs rest (hasPK || (!hasPK && idLike a)) rne ++ genFKs trels)))
      from by rw [show str "\n" = ['\n'] from rfl]; simp]
    rw [splitDefsAux_commaFree _ (attrChunk_commaFree a (!hasPK && idLike a) hnaw) [] 0 _,
        attrChunk_bal a (!hasPK && idLike a) hnaw, List.nil_append]
    rw [show pkFlags (a :: rest) hasPK =
        (!hasPK && idLike a) :: pkFlags rest (hasPK || (!hasPK && idLike a)) from rfl]
    by_cases hco : (!rest.isEmpty || rne) = true
    · rw [if_pos hco,
          show (str "," ++ ('\n' :: (genAttrs rest (hasPK || (!hasPK && idLike a)) rne ++
            genFKs trels))) = ',' :: ('\n' :: (genAttrs rest (hasPK || (!hasPK && idLike a))
            rne ++ genFKs trels)) from rfl,
          splitDefsAux_cut, attrStrip a (!hasPK && idLike a) hna,
          ih hnrest (hasPK || (!hasPK && idLike a))]
      simp [attrDef_isEmpty_false a (!hasPK && idLike a) hna]
    · rw [if_neg hco]
      have h1 : rest.isEmpty = true := by
        cases hre : rest.isEmpty
        · exfalso; apply hco; simp [hre]
        · rfl
      have h2 : rne = false := by
        cases hrne : rne
        · rfl
        · exfalso; apply hco; simp [hrne]
      have h3 : rest = [] := List.isEmpty_iff.mp h1
      have h4 : trels = [] := hcons h2
      subst h3; subst h4
      rw [show (([] : Str) ++ ('\n' :: (genAttrs [] (hasPK || (!hasPK && idLike a)) rne ++
            genFKs []))) = [('\n' : Char)] from rfl,
          endTail_nl, attrStrip a (!hasPK && idLike a) hna]
      simp [attrDef_isEmpty_false a (!hasPK && idLike a) hna]

/-!
## Helper lemmas for the round trip: classifying the generated definitions
-/

theorem space_split_unique (x1 y1 x2 y2 : Str)
    (hx1 : ∀ c ∈ x1, isSpaceChar c = false) (hx2 : ∀ c ∈ x2, isSpaceChar c = false)
    (he : x1 ++ ' ' :: y1 = x2 ++ ' ' :: y2) : x1 = x2 ∧ y1 = y2 := by
  induction x1 generalizing x2 with
  | nil =>
    cases x2 with
    | nil =>
      simp only [List.nil_append, List.cons.injEq] at he
      exact ⟨rfl, he.2⟩
    | cons d ds =>
      simp only [List.nil_append, List.cons_append, List.cons.injEq] at he
      have hd := hx2 d (List.mem_cons_self d ds)
      rw [← he.1] at hd
      exact absurd hd (by decide)
  | cons c cs ih =>
    cases x2 with
    | nil =>
      simp only [List.cons_append, List.nil_append, List.cons.injEq] at he
      have hc := hx1 c (List.mem_cons_self c cs)
      rw [he.1] at hc
      exact absurd hc (by decide)
    | cons d ds =>
      simp only [List.cons_append, List.cons.injEq] at he
      have hrec := ih ds (fun x hx => hx1 x (List.mem_cons_of_mem c hx))
        (fun x hx => hx2 x (List.mem_cons_of_mem d hx)) he.2
      exact ⟨by rw [he.1, hrec.1], hrec.2⟩

theorem upperStr_word_no_space (a : Str) (ha : a.all isWordChar = true) :
    ∀ c ∈ upperStr a, isSpaceChar c = false := by
  intro c hc
  simp only [upperStr, List.mem_map] at hc
  obtain ⟨x, hx, hcx⟩ := hc
  rw [← hcx]
  exact word_toUpper_not_space x (List.all_eq_true.mp ha x hx)

theorem attrDef_split (a : Str) (pk : Bool) :
    attrDef a pk = a ++ ' ' :: (inferType a ++
      ((if pk = true then str " PRIMARY KEY" else []) ++
       ((if containsSub (str "email") (lowerStr a) = true then str " UNIQUE" else []) ++
        (if (containsSub (str "name") (lowerStr a) &&
          !endsWith (str "_id") (lowerStr a)) = true then str " NOT NULL" else [])))) := by
  simp only [attrDef, List.append_assoc]
  rfl

theorem startsFK_attrDef (a : Str) (pk : Bool) (ha : a.all isWordChar = true) :
    startsFK (attrDef a pk) = false := by
  unfold startsFK
  by_contra hp
  simp only [Bool.not_eq_false] at hp
  obtain ⟨t, ht⟩ := List.isPrefixOf_iff_prefix.mp hp
  rw [attrDef_split] at ht
  rw [show upperStr (a ++ ' ' :: (inferType a ++
      ((if pk = true then str " PRIMARY KEY" else []) ++
       ((if containsSub (str "email") (lowerStr a) = true then str " UNIQUE" else []) ++
        (if (containsSub (str "name") (lowerStr a) &&
          !endsWith (str "_id") (lowerStr a)) = true then str " NOT NULL" else []))))) =
      upperStr a ++ ' ' :: upperStr (inferType a ++
      ((if pk = true then str " PRIMARY KEY" else []) ++
       ((if containsSub (str "email") (lowerStr a) = true then str " UNIQUE" else []) ++
        (if (containsSub (str "name") (lowerStr a) &&
          !endsWith (str "_id") (lowerStr a)) = true then str " NOT NULL" else []))))
    from by simp [upperStr]] at ht
  rw [show (str "FOREIGN KEY") = str "FOREIGN" ++ ' ' :: str "KEY" from rfl] at ht
  rw [List.append_assoc, List.cons_append] at ht
  have hsplit := space_split_unique (str "FOREIGN") (str "KEY" ++ t) (upperStr a) _
    (fun c hc => by
      have : (str "FOREIGN").all (fun x => !isSpaceChar x) = true := by decide
      simpa using List.all_eq_true.mp this c hc)
    (upperStr_word_no_space a ha) ht
  have hhead := congrArg List.head? hsplit.2
  rw [show (str "KEY" ++ t).head? = some 'K' from rfl] at hhead
  simp only [upperStr, List.map_append] at hhead
  rcases inferType_cases a with hti | hti | hti <;> rw [hti] at hhead
  · rw [show List.map Char.toUpper (str "INTEGER") = str "INTEGER" from rfl,
        head?_append_ne _ _ (by decide),
        show (str "INTEGER").head? = some 'I' from rfl] at hhead
    simp at hhead
  · rw [show List.map Char.toUpper (str "DATE") = str "DATE" from rfl,
        head?_append_ne _ _ (by decide),
        show (str "DATE").head? = some 'D' from rfl] at hhead
    simp at hhead
  · rw [show List.map Char.toUpper (str "TEXT") = str "TEXT" from rfl,
        head?_append_ne _ _ (by decide),
        show (str "TEXT").head? = some 'T' from rfl] at hhead
    simp at hhead

theorem headSpaceOrNil_append (x y : Str)
    (hx : x = [] ∨ x.head? = some ' ') (hy : y = [] ∨ y.head? = some ' ') :
    x ++ y = [] ∨ (x ++ y).head? = some ' ' := by
  rcases hx with hx | hx
  · subst hx; simpa using hy
  · right
    cases x with
    | nil => simp at hx
    | cons c cs => simpa using hx

theorem ifpart_headSpace (b : Prop) [Decidable b] (L : Str) (hL : L.head? = some ' ') :
    (if b then L else []) = [] ∨ (if b then L else []).head? = some ' ' := by
  split
  · exact Or.inr hL
  · exact Or.inl rfl

theorem colMatch_attrDef (a : Str) (pk : Bool) (ha : wordName a = true) :
    colMatch (attrDef a pk) = some (a, inferType a) := by
  have haw : a.all isWordChar = true := by
    simp only [wordName, Bool.and_eq_true] at ha
    exact ha.2
  have hane : a ≠ [] := by
    simp only [wordName, Bool.and_eq_true, Bool.not_eq_true', List.isEmpty_eq_false] at ha
    exact ha.1
  rw [attrDef_split]
  have hw1 : matchWord1 (a ++ ' ' :: (inferType a ++
      ((if pk = true then str " PRIMARY KEY" else []) ++
       ((if containsSub (str "email") (lowerStr a) = true then str " UNIQUE" else []) ++
        (if (containsSub (str "name") (lowerStr a) &&
          !endsWith (str "_id") (lowerStr a)) = true then str " NOT NULL" else []))))) =
      some (a, ' ' :: (inferType a ++
      ((if pk = true then str " PRIMARY KEY" else []) ++
       ((if containsSub (str "email") (lowerStr a) = true then str " UNIQUE" else []) ++
        (if (containsSub (str "name") (lowerStr a) &&
          !endsWith (str "_id") (lowerStr a)) = true then str " NOT NULL" else []))))) := by
    unfold matchWord1
    rw [takeWhile_append_all isWordChar a _ haw, dropWhile_append_all isWordChar a _ haw]
    rw [show (' ' :: (inferType a ++ _)).takeWhile isWordChar = [] from rfl,
        show ∀ z : Str, (' ' :: z).dropWhile isWordChar = ' ' :: z from fun z => rfl]
    rw [List.append_nil, if_neg (by simp [hane])]
  rw [show colMatch (a ++ ' ' :: (inferType a ++
      ((if pk = true then str " PRIMARY KEY" else []) ++
       ((if containsSub (str "email") (lowerStr a) = true then str " UNIQUE" else []) ++
        (if (containsSub (str "name") (lowerStr a) &&
          !endsWith (str "_id") (lowerStr a)) = true then str " NOT NULL" else []))))) =
      (matchWord1 (a ++ ' ' :: (inferType a ++
      ((if pk = true then str " PRIMARY KEY" else []) ++
       ((if containsSub (str "email") (lowerStr a) = true then str " UNIQUE" else []) ++
        (if (containsSub (str "name") (lowerStr a) &&
          !endsWith (str "_id") (lowerStr a)) = true then str " NOT NULL" else [])))))).bind
      (fun p => (matchSpaces1 p.2).bind fun s2 => (matchWord1 s2).bind fun q =>
        some (p.1, q.1)) from rfl]
  rw [hw1, Option.some_bind]
  have hrest : (inferType a ++
      ((if pk = true then str " PRIMARY KEY" else []) ++
       ((if containsSub (str "email") (lowerStr a) = true then str " UNIQUE" else []) ++
        (if (containsSub (str "name") (lowerStr a) &&
          !endsWith (str "_id") (lowerStr a)) = true then str " NOT NULL" else [])))).dropWhile
        isSpaceChar = inferType a ++
      ((if pk = true then str " PRIMARY KEY" else []) ++
       ((if containsSub (str "email") (lowerStr a) = true then str " UNIQUE" else []) ++
        (if (containsSub (str "name") (lowerStr a) &&
          !endsWith (str "_id") (lowerStr a)) = true then str " NOT NULL" else []))) := by
    apply dropSpaces_keep
    intro c hc
    rw [head?_append_ne _ _ (inferType_ne_nil a)] at hc
    rcases inferType_cases a with hti | hti | hti <;> rw [hti] at hc
    · rw [show (str "INTEGER").head? = some 'I' from rfl] at hc
      simp only [Option.some.injEq] at hc
      rw [← hc]; rfl
    · rw [show (str "DATE").head? = some 'D' from rfl] at hc
      simp only [Option.some.injEq] at hc
      rw [← hc]; rfl
    · rw [show (str "TEXT").head? = some 'T' from rfl] at hc
      simp only [Option.some.injEq] at hc
      rw [← hc]; rfl
  rw [show matchSpaces1 (' ' :: (inferType a ++
      ((if pk = true then str " PRIMARY KEY" else []) ++
       ((if containsSub (str "email") (lowerStr a) = true then str " UNIQUE" else []) ++
        (if (containsSub (str "name") (lowerStr a) &&
          !endsWith (str "_id") (lowerStr a)) = true then str " NOT NULL" else []))))) =
      some ((inferType a ++
      ((if pk = true then str " PRIMARY KEY" else []) ++
       ((if containsSub (str "email") (lowerStr a) = true then str " UNIQUE" else []) ++
        (if (containsSub (str "name") (lowerStr a) &&
          !endsWith (str "_id") (lowerStr a)) = true then str " NOT NULL" else [])))).dropWhile
        isSpaceChar) from rfl, hrest, Option.some_bind]
  have htail : ((if pk = true then str " PRIMARY KEY" else []) ++
       ((if containsSub (str "email") (lowerStr a) = true then str " UNIQUE" else []) ++
        (if (containsSub (str "name") (lowerStr a) &&
          !endsWith (str "_id") (lowerStr a)) = true then str " NOT NULL" else []))) = [] ∨
      ((if pk = true then str " PRIMARY KEY" else []) ++
       ((if containsSub (str "email") (lowerStr a) = true then str " UNIQUE" else []) ++
        (if (containsSub (str "name") (lowerStr a) &&
          !endsWith (str "_id") (lowerStr a)) = true then str " NOT NULL" else []))).head? =
        some ' ' := by
    apply headSpaceOrNil_append
    · exact ifpart_headSpace _ _ rfl
    · apply headSpaceOrNil_append
      · exact ifpart_headSpace _ _ rfl
      · exact ifpart_headSpace _ _ rfl
  have hw2 : matchWord1 (inferType a ++
      ((if pk = true then str " PRIMARY KEY" else []) ++
       ((if containsSub (str "email") (lowerStr a) = true then str " UNIQUE" else []) ++
        (if (containsSub (str "name") (lowerStr a) &&
          !endsWith (str "_id") (lowerStr a)) = true then str " NOT NULL" else []))))
      = some (inferType a, (((if pk = true then str " PRIMARY KEY" else []) ++
       ((if containsSub (str "email") (lowerStr a) = true then str " UNIQUE" else []) ++
        (if (containsSub (str "name") (lowerStr a) &&
          !endsWith (str "_id") (lowerStr a)) = true then str " NOT NULL" else []))) : Str).dropWhile
        isWordChar) := by
    unfold matchWord1
    have hta : (inferType a).all isWordChar = true :=
      List.all_eq_true.mpr (fun c hc => inferType_chars a c hc)
    rw [takeWhile_append_all isWordChar _ _ hta, dropWhile_append_all isWordChar _ _ hta]
    have htw : ((if pk = true then str " PRIMARY KEY" else []) ++
       ((if containsSub (str "email") (lowerStr a) = true then str " UNIQUE" else []) ++
        (if (containsSub (str "name") (lowerStr a) &&
          !endsWith (str "_id") (lowerStr a)) = true then str " NOT NULL" else []))).takeWhile
        isWordChar = [] := by
      rcases htail with h | h
      · rw [h]; rfl
      · cases hx : ((if pk = true then str " PRIMARY KEY" else []) ++
          ((if containsSub (str "email") (lowerStr a) = true then str " UNIQUE" else []) ++
           (if (containsSub (str "name") (lowerStr a) &&
             !endsWith (str "_id") (lowerStr a)) = true then str " NOT NULL" else []))) with
        | nil => rfl
        | cons z zs =>
          rw [hx] at h
          simp only [List.head?_cons, Option.some.injEq] at h
          subst h
          rfl
    rw [htw, List.append_nil]
    rw [if_neg (by simp [inferType_ne_nil a])]
  rw [hw2, Option.some_bind]

theorem fkDef_canon (r : Rel) :
    fkDef r = str "FOREIGN KEY (" ++ (r.fromColumn ++ (str ") REFERENCES " ++
      (r.toTable ++ ('s' :: '(' :: (r.toColumn ++ [')']))))) := by
  simp only [fkDef, List.append_assoc]
  rfl

theorem startsFK_fkDef (r : Rel) : startsFK (fkDef r) = true := by
  rw [fkDef_canon]
  rfl

theorem matchWord1_word_append (n X : Str) (hn : n.all isWordChar = true) (hne : n ≠ [])
    (hX : X.takeWhile isWordChar = []) :
    matchWord1 (n ++ X) = some (n, X) := by
  unfold matchWord1
  rw [takeWhile_append_all isWordChar n X hn, dropWhile_append_all isWordChar n X hn, hX,
      List.append_nil]
  rw [if_neg (by simp [hne])]
  have hdX : X.dropWhile isWordChar = X := by
    cases X with
    | nil => rfl
    | cons z zs =>
      simp only [List.takeWhile_cons] at hX
      by_cases hz : isWordChar z = true
      · rw [if_pos hz] at hX; simp at hX
      · simp [List.dropWhile_cons, hz]
  rw [hdX]

theorem fkMatchAt_fkDef (r : Rel) (h1 : wordName r.fromColumn = true)
    (h2 : wordName r.toTable = true) (h3 : wordName r.toColumn = true) :
    fkMatchAt (fkDef r) = some (r.fromColumn, r.toTable ++ ['s'], r.toColumn) := by
  obtain ⟨h1a, h1b⟩ : r.fromColumn ≠ [] ∧ r.fromColumn.all isWordChar = true := by
    simp only [wordName, Bool.and_eq_true, Bool.not_eq_true', List.isEmpty_eq_false] at h1
    exact h1
  obtain ⟨h2a, h2b⟩ : r.toTable ≠ [] ∧ r.toTable.all isWordChar = true := by
    simp only [wordName, Bool.and_eq_true, Bool.not_eq_true', List.isEmpty_eq_false] at h2
    exact h2
  obtain ⟨h3a, h3b⟩ : r.toColumn ≠ [] ∧ r.toColumn.all isWordChar = true := by
    simp only [wordName, Bool.and_eq_true, Bool.not_eq_true', List.isEmpty_eq_false] at h3
    exact h3
  have e1 : ∀ X : Str, matchLitCI (str "FOREIGN") (str "FOREIGN KEY (" ++ X) =
      some (str " KEY (" ++ X) := fun X => rfl
  have e2 : ∀ X : Str, matchSpaces1 (str " KEY (" ++ X) = some (str "KEY (" ++ X) :=
    fun X => rfl
  have e3 : ∀ X : Str, matchLitCI (str "KEY") (str "KEY (" ++ X) = some (str " (" ++ X) :=
    fun X => rfl
  have e4 : ∀ X : Str, dropSpaces (str " (" ++ X) = str "(" ++ X := fun X => rfl
  have e5 : ∀ X : Str, matchChar '(' (str "(" ++ X) = some X := fun X => rfl
  have e6 : matchWord1 (r.fromColumn ++ (str ") REFERENCES " ++
      (r.toTable ++ ('s' :: '(' :: (r.toColumn ++ [')']))))) =
      some (r.fromColumn, str ") REFERENCES " ++
        (r.toTable ++ ('s' :: '(' :: (r.toColumn ++ [')'])))) :=
    matchWord1_word_append _ _ h1b h1a rfl
  have e7 : ∀ X : Str, matchChar ')' (str ") REFERENCES " ++ X) =
      some (str " REFERENCES " ++ X) := fun X => rfl
  have e8 : ∀ X : Str, dropSpaces (str " REFERENCES " ++ X) = str "REFERENCES " ++ X :=
    fun X => rfl
  have e9 : ∀ X : Str, matchLitCI (str "REFERENCES") (str "REFERENCES " ++ X) =
      some (str " " ++ X) := fun X => rfl
  have e10 : matchSpaces1 (str " " ++ (r.toTable ++ ('s' :: '(' :: (r.toColumn ++ [')'])))) =
      some (r.toTable ++ ('s' :: '(' :: (r.toColumn ++ [')']))) := by
    show (if isSpaceChar ' ' = true then
        some ((r.toTable ++ ('s' :: '(' :: (r.toColumn ++ [')']))).dropWhile isSpaceChar)
      else none) = _
    rw [if_pos (by decide)]
    rw [dropSpaces_keep _ (fun c hc => by
      cases hna : r.toTable with
      | nil =>
        rw [hna] at hc
        simp only [List.nil_append, List.head?_cons, Option.some.injEq] at hc
        subst hc; decide
      | cons x xs =>
        rw [hna] at hc
        simp only [List.cons_append, List.head?_cons, Option.some.injEq] at hc
        subst hc
        exact word_not_space _ (List.all_eq_true.mp h2b _ (hna ▸ List.mem_cons_self x xs)))]
  have e11 : matchWord1 (r.toTable ++ ('s' :: '(' :: (r.toColumn ++ [')']))) =
      some (r.toTable ++ ['s'], '(' :: (r.toColumn ++ [')'])) := by
    unfold matchWord1
    rw [takeWhile_append_all isWordChar _ _ h2b, dropWhile_append_all isWordChar _ _ h2b]
    rw [show ('s' :: '(' :: (r.toColumn ++ [')'])).takeWhile isWordChar = ['s'] from rfl,
        show ('s' :: '(' :: (r.toColumn ++ [')'])).dropWhile isWordChar =
          '(' :: (r.toColumn ++ [')']) from rfl]
    rw [if_neg (by cases r.toTable <;> simp)]
  have e12 : ∀ X : Str, dropSpaces ('(' :: X) = '(' :: X := fun X => rfl
  have e13 : ∀ X : Str, matchChar '(' ('(' :: X) = some X := fun X => rfl
  have e14 : matchWord1 (r.toColumn ++ [')']) = some (r.toColumn, [')']) :=
    matchWord1_word_append _ _ h3b h3a rfl
  have e15 : matchChar ')' [')'] = some [] := rfl
  rw [fkDef_canon]
  simp only [fkMatchAt, e1, Option.some_bind, e2, e3, e4, e5, e6, e7, e8, e9, e10, e11,
    e12, e13, e14, e15]

theorem fkSearch_fkDef (r : Rel) (h1 : wordName r.fromColumn = true)
    (h2 : wordName r.toTable = true) (h3 : wordName r.toColumn = true) :
    fkSearch (fkDef r) = some (r.fromColumn, r.toTable ++ ['s'], r.toColumn) := by
  have hcons : fkDef r = 'F' :: (str "OREIGN KEY (" ++ (r.fromColumn ++
      (str ") REFERENCES " ++ (r.toTable ++ ('s' :: '(' :: (r.toColumn ++ [')'])))))) := by
    rw [fkDef_canon]
    rfl
  conv_lhs => rw [hcons]
  rw [show fkSearch ('F' :: (str "OREIGN KEY (" ++ (r.fromColumn ++
      (str ") REFERENCES " ++ (r.toTable ++ ('s' :: '(' :: (r.toColumn ++ [')'])))))))  =
    (match fkMatchAt ('F' :: (str "OREIGN KEY (" ++ (r.fromColumn ++
      (str ") REFERENCES " ++ (r.toTable ++ ('s' :: '(' :: (r.toColumn ++ [')'])))))))  with
     | some g => some g
     | none => fkSearch (str "OREIGN KEY (" ++ (r.fromColumn ++
        (str ") REFERENCES " ++ (r.toTable ++ ('s' :: '(' :: (r.toColumn ++ [')'])))))))
    from rfl]
  rw [← hcons, fkMatchAt_fkDef r h1 h2 h3]

theorem processDefs_attr_cons (tn a : Str) (pk : Bool) (ds : List Str)
    (ha : wordName a = true) :
    processDefs tn (attrDef a pk :: ds) =
      (a :: (processDefs tn ds).1, (a, inferType a) :: (processDefs tn ds).2.1,
       (processDefs tn ds).2.2) := by
  have haw : a.all isWordChar = true := by
    simp only [wordName, Bool.and_eq_true] at ha
    exact ha.2
  have hstrip : stripChars (attrDef a pk) = attrDef a pk :=
    stripChars_eq_self _ (attrDef_head a pk ha) (attrDef_last a pk)
  simp only [processDefs, hstrip, attrDef_isEmpty_false a pk ha, Bool.false_eq_true,
    if_false, startsFK_attrDef a pk haw, colMatch_attrDef a pk ha]

theorem processDefs_fk_cons (tn : Str) (r : Rel) (ds : List Str)
    (h1 : wordName r.fromColumn = true) (h2 : wordName r.toTable = true)
    (h3 : wordName r.toColumn = true) :
    processDefs tn (fkDef r :: ds) =
      ((processDefs tn ds).1, (processDefs tn ds).2.1,
       ⟨tn, r.fromColumn, r.toTable ++ ['s'], r.toColumn⟩ :: (processDefs tn ds).2.2) := by
  have hstrip : stripChars (fkDef r) = fkDef r :=
    stripChars_eq_self _ (fkDef_head r) (fkDef_last r)
  simp only [processDefs, hstrip, fkDef_isEmpty_false r, Bool.false_eq_true, if_false,
    startsFK_fkDef r, if_true, fkSearch_fkDef r h1 h2 h3]

theorem processDefs_fkList (tn : Str) (trels : List Rel)
    (hw : trels.all (fun r => wordName r.fromColumn && wordName r.toTable &&
      wordName r.toColumn) = true) :
    processDefs tn (trels.map fkDef) =
      ([], [], trels.map fun r => ⟨tn, r.fromColumn, r.toTable ++ ['s'], r.toColumn⟩) := by
  induction trels with
  | nil => rfl
  | cons r rest ih =>
    rw [List.all_cons, Bool.and_eq_true] at hw
    obtain ⟨hwr, hwrest⟩ := hw
    have hparts : wordName r.fromColumn = true ∧ wordName r.toTable = true ∧
        wordName r.toColumn = true := by
      simp only [Bool.and_eq_true] at hwr
      exact ⟨hwr.1.1, hwr.1.2, hwr.2⟩
    rw [List.map_cons, processDefs_fk_cons tn r _ hparts.1 hparts.2.1 hparts.2.2, ih hwrest]
    simp

theorem processDefs_bodyDefs (tn : Str) (pairs : List (Str × Bool)) (trels : List Rel)
    (hpairs : pairs.all (fun p => wordName p.1) = true)
    (hw : trels.all (fun r => wordName r.fromColumn && wordName r.toTable &&
      wordName r.toColumn) = true) :
    processDefs tn ((pairs.map fun p => attrDef p.1 p.2) ++ trels.map fkDef) =
      (pairs.map Prod.fst, pairs.map (fun p => (p.1, inferType p.1)),
       trels.map fun r => ⟨tn, r.fromColumn, r.toTable ++ ['s'], r.toColumn⟩) := by
  induction pairs with
  | nil =>
    simp only [List.map_nil, List.nil_append]
    exact processDefs_fkList tn trels hw
  | cons p rest ih =>
    rw [List.all_cons, Bool.and_eq_true] at hpairs
    obtain ⟨hp, hprest⟩ := hpairs
    rw [List.map_cons, List.cons_append, processDefs_attr_cons tn p.1 p.2 _ hp, ih hprest]
    simp

/-!
## Helper lemmas for the round trip: scanning the whole generated text
-/

theorem noSemi_genAttrs (attrs : List Str) (rne : Bool) (hw : attrs.all wordName = true) :
    ∀ hasPK : Bool, (';' ∈ genAttrs attrs hasPK rne) → False := by
  induction attrs with
  | nil =>
    intro hasPK hm
    simp [genAttrs] at hm
  | cons a rest ih =>
    intro hasPK hm
    rw [List.all_cons, Bool.and_eq_true] at hw
    obtain ⟨ha, hrest⟩ := hw
    have haw : a.all isWordChar = true := by
      simp only [wordName, Bool.and_eq_true] at ha
      exact ha.2
    rw [show genAttrs (a :: rest) hasPK rne =
        attrLine a (!hasPK && idLike a) rest.isEmpty rne ++
          genAttrs rest (hasPK || (!hasPK && idLike a)) rne from rfl,
        attrLine_decomp] at hm
    rcases List.mem_append.mp hm with hm | hm
    · rcases List.mem_append.mp hm with hm | hm
      · rcases List.mem_append.mp hm with hm | hm
        · revert hm; decide
        · have := attrDef_chars a _ haw ';' hm
          exact absurd this (by decide)
      · rcases List.mem_append.mp hm with hm | hm
        · have := mem_if_nil hm
          revert this; decide
        · revert hm; decide
    · exact ih hrest _ hm

theorem noSemi_genFKs (trels : List Rel)
    (hw : trels.all (fun r => wordName r.fromColumn && wordName r.toTable &&
      wordName r.toColumn) = true) :
    (';' ∈ genFKs trels) → False := by
  induction trels with
  | nil => intro hm; simp [genFKs] at hm
  | cons r rest ih =>
    intro hm
    rw [List.all_cons, Bool.and_eq_true] at hw
    obtain ⟨hwr, hwrest⟩ := hw
    obtain ⟨h1, h2, h3⟩ := wordName_parts r hwr
    rw [genFKs_cons] at hm
    rcases List.mem_append.mp hm with hm | hm
    · rcases List.mem_append.mp hm with hm | hm
      · revert hm; decide
      · have := fkDef_chars r h1 h2 h3 ';' hm
        exact absurd this (by decide)
    · rcases List.mem_append.mp hm with hm | hm
      · have := mem_if_nil2 hm
        revert this; decide
      · rcases List.mem_cons.mp hm with hm | hm
        · exact absurd hm (by decide)
        · exact ih hwrest hm

theorem gen_table_canon (t : Table) (allT : List Table) (rels : List Rel) (tail : Str) :
    generate_table_sql t allT rels ++ tail = str "CREATE TABLE IF NOT EXISTS " ++
      (t.name ++ ('s' :: ' ' :: '(' ::
        (('\n' :: (genAttrs t.attributes false (!rels.isEmpty) ++
           genFKs (rels.filter (fun r => r.fromTable == t.name)))) ++ ')' :: ';' :: tail))) := by
  simp only [generate_table_sql, List.append_assoc]
  rw [show str "s (\n" = 's' :: ' ' :: '(' :: '\n' :: [] from rfl,
      show str ");" = ')' :: ';' :: [] from rfl]
  simp

theorem headMatch_table (t : Table) (allT : List Table) (rels : List Rel) (tail : Str)
    (hn : t.name.all isWordChar = true) (hwa : t.attributes.all wordName = true)
    (hwr : (rels.filter (fun r => r.fromTable == t.name)).all
      (fun r => wordName r.fromColumn && wordName r.toTable && wordName r.toColumn) = true) :
    headMatch (generate_table_sql t allT rels ++ tail) =
      some (t.name ++ ['s'],
        ('\n' :: (genAttrs t.attributes false (!rels.isEmpty) ++
          genFKs (rels.filter (fun r => r.fromTable == t.name))), tail)) := by
  rw [gen_table_canon]
  apply headMatch_gen _ _ _ hn
  intro hm
  rcases List.mem_cons.mp hm with hm | hm
  · exact absurd hm (by decide)
  · rcases List.mem_append.mp hm with hm | hm
    · exact noSemi_genAttrs t.attributes _ hwa false hm
    · exact noSemi_genFKs _ hwr hm

theorem findBlocks_nil : findBlocks ([] : Str) = [] := by
  rw [findBlocks.eq_def]
  split
  · rename_i r heq
    rw [show headMatch ([] : Str) = none from rfl] at heq
    simp at heq
  · rfl

theorem findBlocks_cons_some (s : Str) (r : Str × Str × Str) (h : headMatch s = some r) :
    findBlocks s = (r.1, r.2.1) :: findBlocks r.2.2 := by
  rw [findBlocks.eq_def]
  split
  · rename_i r2 heq
    rw [h] at heq
    simp only [Option.some.injEq] at heq
    subst heq
    rfl
  · rename_i hnone
    rw [h] at hnone
    simp at hnone

theorem findBlocks_skip (c : Char) (x : Str) (h : headMatch (c :: x) = none) :
    findBlocks (c :: x) = findBlocks x := by
  rw [findBlocks.eq_def]
  split
  · rename_i r heq
    rw [h] at heq
    simp at heq
  · rfl

theorem headMatch_nl (x : Str) : headMatch ('\n' :: x) = none := rfl

theorem findBlocks_gen (tables : List Table) (allT : List Table) (rels : List Rel)
    (hwf : tables.all (fun t => wordName t.name && t.attributes.all wordName) = true)
    (hwr : rels.all (fun r => wordName r.fromColumn && wordName r.toTable &&
      wordName r.toColumn) = true) :
    findBlocks (joinBlocks (tables.map (fun t => generate_table_sql t allT rels))) =
      tables.map (fun t => (t.name ++ ['s'],
        '\n' :: (genAttrs t.attributes false (!rels.isEmpty) ++
          genFKs (rels.filter (fun r => r.fromTable == t.name))))) := by
  induction tables with
  | nil => exact findBlocks_nil
  | cons t rest ih =>
    rw [List.all_cons, Bool.and_eq_true] at hwf
    obtain ⟨ht, hrest⟩ := hwf
    have htn : t.name.all isWordChar = true := by
      simp only [Bool.and_eq_true, wordName] at ht
      exact ht.1.2
    have hta : t.attributes.all wordName = true := by
      simp only [Bool.and_eq_true] at ht
      exact ht.2
    have hfil : (rels.filter (fun r => r.fromTable == t.name)).all
        (fun r => wordName r.fromColumn && wordName r.toTable &&
          wordName r.toColumn) = true := by
      apply List.all_eq_true.mpr
      intro r hr
      exact List.all_eq_true.mp hwr r (List.mem_of_mem_filter hr)
    cases rest with
    | nil =>
      simp only [List.map_cons, List.map_nil]
      rw [show joinBlocks [generate_table_sql t allT rels] =
          generate_table_sql t allT rels from rfl]
      rw [show generate_table_sql t allT rels =
          generate_table_sql t allT rels ++ [] from (List.append_nil _).symm]
      rw [findBlocks_cons_some _ _ (headMatch_table t allT rels [] htn hta hfil)]
      rw [findBlocks_nil]
    | cons t2 rest2 =>
      simp only [List.map_cons]
      rw [show joinBlocks (generate_table_sql t allT rels ::
            generate_table_sql t2 allT rels ::
            rest2.map (fun u => generate_table_sql u allT rels)) =
          generate_table_sql t allT rels ++
            ('\n' :: '\n' ::
              joinBlocks (generate_table_sql t2 allT rels ::
                rest2.map (fun u => generate_table_sql u allT rels)))
        from by
          rw [show joinBlocks (generate_table_sql t allT rels ::
              generate_table_sql t2 allT rels ::
              rest2.map (fun u => generate_table_sql u allT rels)) =
            generate_table_sql t allT rels ++ str "\n\n" ++
              joinBlocks (generate_table_sql t2 allT rels ::
                rest2.map (fun u => generate_table_sql u allT rels)) from rfl]
          rw [show str "\n\n" = ['\n', '\n'] from rfl]
          simp]
      rw [findBlocks_cons_some _ _ (headMatch_table t allT rels _ htn hta hfil)]
      rw [findBlocks_skip _ _ (headMatch_nl _), findBlocks_skip _ _ (headMatch_nl _)]
      have := ih hrest
      simp only [List.map_cons] at this
      rw [this]

theorem pkFlags_length (attrs : List Str) (hasPK : Bool) :
    (pkFlags attrs hasPK).length = attrs.length := by
  induction attrs generalizing hasPK with
  | nil => rfl
  | cons a rest ih => simp [pkFlags, ih]

theorem parse_generate (s : Schema) (h : WFSchema s = true) :
    parse_sql_to_schema (generate_sql_from_structured_schema s) =
      { tables := s.tables.map (fun t =>
          { name := t.name ++ ['s'], attributes := t.attributes,
            columns := t.attributes.map (fun a => (a, inferType a)) }),
        relationships := s.tables.flatMap (fun t =>
          (s.relationships.filter (fun r => r.fromTable == t.name)).map
            (fun r => ⟨t.name ++ ['s'], r.fromColumn, r.toTable ++ ['s'], r.toColumn⟩)) } := by
  have hw : s.tables.all (fun t => wordName t.name && t.attributes.all wordName) = true ∧
      s.relationships.all (fun r => wordName r.fromColumn && wordName r.toTable &&
        wordName r.toColumn) = true := by
    simp only [WFSchema, Bool.and_eq_true] at h
    exact h
  obtain ⟨hwt, hwr⟩ := hw
  have hper : ∀ t ∈ s.tables,
      processDefs (t.name ++ ['s'])
        (splitDefs ('\n' :: (genAttrs t.attributes false (!s.relationships.isEmpty) ++
          genFKs (s.relationships.filter (fun r => r.fromTable == t.name))))) =
      (t.attributes, t.attributes.map (fun a => (a, inferType a)),
       (s.relationships.filter (fun r => r.fromTable == t.name)).map
         (fun r => ⟨t.name ++ ['s'], r.fromColumn, r.toTable ++ ['s'], r.toColumn⟩)) := by
    intro t ht
    have hta : t.attributes.all wordName = true := by
      have := List.all_eq_true.mp hwt t ht
      simp only [Bool.and_eq_true] at this
      exact this.2
    have hfil : (s.relationships.filter (fun r => r.fromTable == t.name)).all
        (fun r => wordName r.fromColumn && wordName r.toTable && wordName r.toColumn)
        = true := by
      apply List.all_eq_true.mpr
      intro r hr
      exact List.all_eq_true.mp hwr r (List.mem_of_mem_filter hr)
    have hcons : (!s.relationships.isEmpty) = false →
        s.relationships.filter (fun r => r.fromTable == t.name) = [] := by
      intro hf
      have hrels : s.relationships = [] := by
        cases hrel : s.relationships with
        | nil => rfl
        | cons x xs => rw [hrel] at hf; simp at hf
      rw [hrels]
      rfl
    unfold splitDefs
    rw [splitAttrs t.attributes _ _ hta hfil hcons false]
    have hpairs : (t.attributes.zip (pkFlags t.attributes false)).all
        (fun p => wordName p.1) = true := by
      apply List.all_eq_true.mpr
      intro p hp
      obtain ⟨a, b⟩ := p
      exact List.all_eq_true.mp hta a (List.of_mem_zip hp).1
    rw [processDefs_bodyDefs _ _ _ hpairs hfil]
    have hlen : t.attributes.length ≤ (pkFlags t.attributes false).length := by
      rw [pkFlags_length]
    have hcols : (t.attributes.zip (pkFlags t.attributes false)).map
        (fun p => (p.1, inferType p.1)) =
        t.attributes.map (fun a => (a, inferType a)) := by
      rw [show (fun p : Str × Bool => (p.1, inferType p.1)) =
          (fun a : Str => (a, inferType a)) ∘ Prod.fst from rfl,
        ← List.map_map, List.map_fst_zip _ _ hlen]
    rw [List.map_fst_zip _ _ hlen, hcols]
  unfold parse_sql_to_schema generate_sql_from_structured_schema
  rw [findBlocks_gen s.tables s.tables s.relationships hwt hwr]
  congr 1
  · rw [List.map_map]
    apply List.map_eq_map_iff.mpr
    intro t ht
    dsimp only [Function.comp]
    rw [hper t ht]
  · rw [List.flatMap_map]
    apply List.flatMap_congr
    intro t ht
    dsimp only
    rw [hper t ht]

/-!
## Claim theorems
-/

/-- C1 counterexample: the round trip does not preserve entity names as the
claim states.  For the well-formed single-entity schema Student, the parsed
schema's entity is named Students: the generator pluralizes the table name
with an s suffix and the parser reads the pluralized name back. -/
theorem C1_counterexample :
    (parse_sql_to_schema (generate_sql_from_structured_schema
      ⟨[⟨str "Student", [str "Student_ID"]⟩], []⟩)).tables.map ParsedTable.name =
      [str "Students"] ∧
    [str "Students"] ≠ [str "Student"] := by
  constructor
  · rw [parse_generate _ (by decide)]
    decide
  · decide

/-- C1 (amended): for every well-formed Schema (word-character table,
attribute and relationship-endpoint names), parsing the generated DDL
preserves attribute names in order, and preserves entity names and
relationship endpoints up to the s-suffix pluralization the generator
applies: each parsed entity is named name-plus-s, and the relationship list
is exactly the input relationships grouped by entity in entity order, with
fromTable and toTable pluralized and the columns unchanged (relationships
whose fromTable names no entity are dropped). -/
theorem C1_roundtrip_pluralized (s : Schema) (h : WFSchema s = true) :
    (parse_sql_to_schema (generate_sql_from_structured_schema s)).tables.map
        ParsedTable.name = s.tables.map (fun t => t.name ++ str "s") ∧
    (parse_sql_to_schema (generate_sql_from_structured_schema s)).tables.map
        ParsedTable.attributes = s.tables.map Table.attributes ∧
    (parse_sql_to_schema (generate_sql_from_structured_schema s)).relationships =
      s.tables.flatMap (fun t =>
        (s.relationships.filter (fun r => r.fromTable == t.name)).map
          (fun r => ⟨t.name ++ str "s", r.fromColumn, r.toTable ++ str "s", r.toColumn⟩)) := by
  rw [parse_generate s h]
  refine ⟨?_, ?_, ?_⟩
  · rw [List.map_map]
    apply List.map_eq_map_iff.mpr
    intro t ht
    rfl
  · rw [List.map_map]
    apply List.map_eq_map_iff.mpr
    intro t ht
    rfl
  · apply List.flatMap_congr
    intro t ht
    rfl

/-- C1 witness: the amended round trip evaluated on a concrete two-entity
schema with one relationship. -/
theorem C1_roundtrip_witness :
    WFSchema ⟨[⟨str "Student", [str "Student_ID", str "Name"]⟩,
               ⟨str "Borrowing", [str "Borrowing_ID", str "Student_ID"]⟩],
              [⟨str "Borrowing", str "Student_ID", str "Student", str "Student_ID"⟩]⟩ =
        true ∧
    (parse_sql_to_schema (generate_sql_from_structured_schema
      ⟨[⟨str "Student", [str "Student_ID", str "Name"]⟩,
        ⟨str "Borrowing", [str "Borrowing_ID", str "Student_ID"]⟩],
       [⟨str "Borrowing", str "Student_ID", str "Student", str "Student_ID"⟩]⟩)).tables.map
      ParsedTable.name = [str "Students", str "Borrowings"] :=
  ⟨by decide, by
    rw [(C1_roundtrip_pluralized _ (by decide)).1]
    decide⟩

/-- C2 counterexample: the attribute name Sessionid ends in the bare i-d
suffix and not in the word name, so the claim assigns it INTEGER, but the
inferencer (which only tests the underscore-i-d suffix) infers TEXT. -/
theorem C2_counterexample :
    specIdPattern (str "Sessionid") = true ∧
    endsWith (str "_id") (lowerStr (str "Sessionid")) = false ∧
    inferType (str "Sessionid") = str "TEXT" ∧
    inferType (str "Sessionid") ≠ str "INTEGER" := by decide

/-- C2 (amended): the inferencer assigns INTEGER to every attribute name whose
lower-casing ends in the underscore-i-d suffix; names ending merely in the
bare i-d suffix are not covered by this rule. -/
theorem C2_underscore_id_infers_integer (name : Str)
    (h : endsWith (str "_id") (lowerStr name) = true) :
    inferType name = str "INTEGER" := by
  have hn := endsWith_uid_not_name (lowerStr name) h
  simp [inferType, h, hn]

/-- C2 witness: the amended rule evaluated at the concrete name User_ID. -/
theorem C2_witness :
    endsWith (str "_id") (lowerStr (str "User_ID")) = true ∧
    inferType (str "User_ID") = str "INTEGER" :=
  ⟨by decide, C2_underscore_id_infers_integer (str "User_ID") (by decide)⟩

/-- C3: evaluation at the failing input.  In a schema whose relationship list
is nonempty, a table with no relationships of its own still gets a comma
after its final attribute (main.py line 601 tests the whole schema's
relationship list), producing a dangling comma before the closing
parenthesis, although no relationship has this table as fromTable. -/
theorem C3_failing_input :
    (([⟨str "B", str "Y_id", str "B", str "B_id"⟩] : List Rel).filter
        (fun r => r.fromTable == str "A")) = [] ∧
    generate_table_sql ⟨str "A", [str "X"]⟩ []
        [⟨str "B", str "Y_id", str "B", str "B_id"⟩] =
      str "CREATE TABLE IF NOT EXISTS As (\n  X TEXT,\n);" := by decide

/-- C6 counterexample: in the entity Session with ordered attributes Sessionid
and User_id, the first attribute matching the spec's id pattern is
Sessionid, but the generator attaches PRIMARY KEY to User_id (it only tests
the underscore-i-d suffix), so the keyword is not attached to the first
id-pattern attribute. -/
theorem C6_counterexample :
    specIdPattern (str "Sessionid") = true ∧
    pkFlags [str "Sessionid", str "User_id"] false = [false, true] ∧
    generate_table_sql ⟨str "Session", [str "Sessionid", str "User_id"]⟩ [] [] =
      str "CREATE TABLE IF NOT EXISTS Sessions (\n  Sessionid TEXT,\n  User_id INTEGER PRIMARY KEY\n);" := by
  refine ⟨by decide, by decide, ?_⟩
  decide

/-- C6 (amended): the attribute loop of generate_table_sql renders its lines
from the primary-key flag sequence pkFlags; that sequence contains at most
one true, it is true exactly at the first attribute whose lower-cased name
ends in the underscore-i-d suffix (first-match-wins, positional), and an
entity none of whose attributes matches receives no PRIMARY KEY and is
generated without error. -/
theorem C6_pk_first_match (attrs : List Str) (relsNonempty : Bool) :
    genAttrs attrs false relsNonempty =
      renderAttrLines attrs (pkFlags attrs false) relsNonempty ∧
    (pkFlags attrs false).count true ≤ 1 ∧
    pkFlags attrs false = markFirst attrs ∧
    ((∀ a ∈ attrs, idLike a = false) → pkFlags attrs false = attrs.map fun _ => false) :=
  ⟨genAttrs_eq_render attrs false relsNonempty,
   by rw [pkFlags_false_eq_markFirst]; exact markFirst_count_le_one attrs,
   pkFlags_false_eq_markFirst attrs,
   fun h => by rw [pkFlags_false_eq_markFirst]; exact markFirst_all_false attrs h⟩

/-- C6 witness: the amended theorem applied to the attribute list consisting
of the single non-id attribute Notes. -/
theorem C6_witness : pkFlags [str "Notes"] false = [str "Notes"].map fun _ => false :=
  (C6_pk_first_match [str "Notes"] false).2.2.2 (by decide)

/-- C5: the parser's body splitter cuts only at commas seen at parenthesis
depth zero.  First part: a definition of the shape u(v)w, where u and w are
free of commas and parentheses and v never lets the depth drop below one,
is returned as one single definition, whatever commas v contains.  Second
part: a comma at depth zero does separate two definitions.  Third part: the
concrete Price DECIMAL(10,2) NOT NULL definition stays in one piece. -/
theorem C5_top_level_comma_split :
    (∀ u v w : Str, u.all plainChar = true → w.all plainChar = true →
      innerOK 1 v = true → scanBal 1 v = 1 →
      (stripChars (u ++ ('(' :: (v ++ ')' :: w)))).isEmpty = false →
      splitDefs (u ++ ('(' :: (v ++ ')' :: w))) =
        [stripChars (u ++ ('(' :: (v ++ ')' :: w)))]) ∧
    (∀ x y : Str, ((',' ∈ x) → False) → scanBal 0 x = 0 →
      splitDefs (x ++ ',' :: y) =
        (if (stripChars x).isEmpty then [] else [stripChars x]) ++ splitDefs y) ∧
    splitDefs (str "Price DECIMAL(10,2) NOT NULL") = [str "Price DECIMAL(10,2) NOT NULL"] := by
  refine ⟨?_, ?_, by decide⟩
  · intro u v w hu hw hv hbal hne
    have hucomma : (',' ∈ u) → False := fun hm =>
      absurd (List.all_eq_true.mp hu _ hm) (by decide)
    have hwcomma : (',' ∈ w) → False := fun hm =>
      absurd (List.all_eq_true.mp hw _ hm) (by decide)
    unfold splitDefs
    rw [splitDefsAux_commaFree u hucomma [] 0 _, scanBal_plain u hu 0, List.nil_append,
        splitDefsAux_step u 0 '(' _ (by decide),
        (by decide : parenStep 0 '(' = 1),
        splitDefsAux_inner v _ 1 _ hv, hbal,
        splitDefsAux_step _ 1 ')' _ (by decide),
        (by decide : parenStep 1 ')' = 0),
        splitDefsAux_commaFree_end w hwcomma _ 0]
    have hcur : u ++ ['('] ++ v ++ [')'] ++ w = u ++ ('(' :: (v ++ ')' :: w)) := by simp
    rw [hcur, hne]
    rfl
  · intro x y hx hbal
    unfold splitDefs
    rw [splitDefsAux_commaFree x hx [] 0 _, hbal, List.nil_append]
    exact splitDefsAux_cut x y

/-- C5 witness: the one-definition part of the theorem applied to the concrete
definition Price DECIMAL(10,2) NOT NULL. -/
theorem C5_witness :
    splitDefs (str "Price DECIMAL" ++ ('(' :: (str "10,2" ++ ')' :: str " NOT NULL"))) =
      [stripChars (str "Price DECIMAL" ++ ('(' :: (str "10,2" ++ ')' :: str " NOT NULL")))] :=
  C5_top_level_comma_split.1 (str "Price DECIMAL") (str "10,2") (str " NOT NULL")
    (by decide) (by decide) (by decide) (by decide) (by decide)

/-- C9 counterexample: the statement splitter of execute_sql splits at every
semicolon, not only at top-level ones: on the input A(;) it cuts inside the
parentheses, while the top-level-only splitter described by the spec keeps
the text in one statement. -/
theorem C9_counterexample :
    splitStatements (str "A(;)") = [str "A(", str ")"] ∧
    specSplitStatements (str "A(;)") = [str "A(;)"] ∧
    splitStatements (str "A(;)") ≠ specSplitStatements (str "A(;)") := by decide

/-- C9 (amended): the statement splitter splits the text at every semicolon
regardless of nesting, trims each fragment and discards empty ones; the
fragment list is compositional across semicolons, and it is invariant under
whitespace (including blank lines) prepended or appended to the text. -/
theorem C9_amended :
    (∀ x y : Str, splitStatements (x ++ ';' :: y) = splitStatements x ++ splitStatements y) ∧
    (∀ ws s : Str, ws.all isSpaceChar = true →
      splitStatements (ws ++ s) = splitStatements s ∧
      splitStatements (s ++ ws) = splitStatements s) := by
  constructor
  · intro x y
    unfold splitStatements
    rw [splitOnSemi_append_semi, List.map_append, List.filter_append]
  · intro ws s hws
    have hsemi : (';' ∈ ws) → False := fun hm =>
      absurd (List.all_eq_true.mp hws _ hm) (by decide)
    constructor
    · unfold splitStatements
      rw [splitOnSemi_ws_append ws s hsemi]
      cases hsp : splitOnSemi s with
      | nil => exact absurd hsp (splitOnSemi_ne_nil s)
      | cons f fs => simp [appHead, stripChars_ws_append ws f hws]
    · unfold splitStatements
      rw [splitOnSemi_append_ws s ws hsemi]
      exact filter_map_appLast ws hws _ (splitOnSemi_ne_nil s)

/-- C9 witness: whitespace invariance applied to a blank-line prefix of the
two-statement text A;B. -/
theorem C9_witness : splitStatements (str " \n" ++ str "A;B") = splitStatements (str "A;B") :=
  (C9_amended.2 (str " \n") (str "A;B") (by decide)).1

/-- C7: generating DDL for the single-entity Student schema with ordered
attributes Student_ID, Name, Email and no relationships yields exactly the
text of Scenario A. -/
theorem C7_scenario_a :
    generate_sql_from_structured_schema
      ⟨[⟨str "Student", [str "Student_ID", str "Name", str "Email"]⟩], []⟩ =
    str "CREATE TABLE IF NOT EXISTS Students (\n  Student_ID INTEGER PRIMARY KEY,\n  Name TEXT NOT NULL,\n  Email TEXT UNIQUE\n);" := by
  decide

/-- C4: the parser is total and best-effort.  A position where the CREATE
TABLE pattern does not match is simply skipped, scanning continuing with
the rest of the input, and an input in which the pattern matches at no
position parses to the empty schema; the embedding is a total function, so
no exception reaches the caller (the Python source additionally wraps the
body in a try/except returning the empty schema). -/
theorem C4_parse_total_skip :
    (∀ (c : Char) (s : Str), headMatch (c :: s) = none →
      findBlocks (c :: s) = findBlocks s) ∧
    (∀ s : Str, allPositionsFail s = true →
      parse_sql_to_schema s = { tables := [], relationships := [] }) := by
  constructor
  · intro c s h
    rw [findBlocks.eq_def]
    split
    · rename_i r heq
      rw [h] at heq
      simp at heq
    · rfl
  · intro s h
    unfold parse_sql_to_schema
    rw [findBlocks_nil_of_fail s h]
    rfl

/-- C4 witness: prose with no CREATE TABLE block parses to the empty schema. -/
theorem C4_witness :
    parse_sql_to_schema (str "just some prose text.") =
      { tables := [], relationships := [] } :=
  C4_parse_total_skip.2 (str "just some prose text.") (by decide)

/-- C8: a definition that starts with FOREIGN KEY (case-insensitively) but on
which the foreign-key pattern finds no well-formed REFERENCES clause is
dropped silently: no relationship, no attribute, and the remaining
definitions are processed exactly as without it. -/
theorem C8_malformed_fk_dropped (tn d : Str) (ds : List Str)
    (hfk : startsFK (stripChars d) = true) (hsearch : fkSearch (stripChars d) = none) :
    processDefs tn (d :: ds) = processDefs tn ds := by
  have hne : (stripChars d).isEmpty = false := by
    cases hsd : stripChars d with
    | nil => rw [hsd] at hfk; exact absurd hfk (by decide)
    | cons c cs => rfl
  simp only [processDefs, hne, Bool.false_eq_true, if_false, hfk, if_true, hsearch]

/-- C8 witness: a FOREIGN KEY definition whose REFERENCES clause is missing
contributes nothing. -/
theorem C8_witness :
    processDefs (str "T") [str "FOREIGN KEY (x) REF (y)", str "A INTEGER"] =
      processDefs (str "T") [str "A INTEGER"] :=
  C8_malformed_fk_dropped (str "T") (str "FOREIGN KEY (x) REF (y)") [str "A INTEGER"]
    (by decide) (by decide)

/-- C10: a non-FOREIGN-KEY definition that is a single word token (only word
characters, hence no declared type) is dropped: it contributes no attribute
and no column, and every column pair the parser does produce has a nonempty
name and a nonempty declared type. -/
theorem C10_bare_column_dropped :
    (∀ (tn d : Str) (ds : List Str), startsFK (stripChars d) = false →
      (stripChars d).all isWordChar = true →
      processDefs tn (d :: ds) = processDefs tn ds) ∧
    (∀ (tn : Str) (defs : List Str) (p : Str × Str),
      p ∈ (processDefs tn defs).2.1 → p.1 ≠ [] ∧ p.2 ≠ []) := by
  constructor
  · intro tn d ds hfk hw
    by_cases hne : (stripChars d).isEmpty = true
    · simp only [processDefs, hne, if_true]
    · have hnil : stripChars d ≠ [] := by
        intro hx
        exact hne (by rw [hx]; rfl)
      have hcol : colMatch (stripChars d) = none := colMatch_all_word_none _ hnil hw
      simp only [processDefs, hne, Bool.false_eq_true, if_false, hfk, hcol]
  · intro tn defs
    induction defs with
    | nil => intro p hp; simp [processDefs] at hp
    | cons d ds ih =>
      intro p hp
      simp only [processDefs] at hp
      by_cases h1 : (stripChars d).isEmpty = true
      · rw [if_pos h1] at hp
        exact ih p hp
      · rw [if_neg h1] at hp
        by_cases h2 : startsFK (stripChars d) = true
        · rw [if_pos h2] at hp
          cases hf : fkSearch (stripChars d) with
          | none => rw [hf] at hp; exact ih p hp
          | some g =>
            rw [hf] at hp
            obtain ⟨a, b, c⟩ := g
            exact ih p hp
        · rw [if_neg h2] at hp
          cases hc : colMatch (stripChars d) with
          | none => rw [hc] at hp; exact ih p hp
          | some g =>
            rw [hc] at hp
            obtain ⟨n, t⟩ := g
            simp only [List.mem_cons] at hp
            cases hp with
            | inl hx =>
              rw [hx]
              exact colMatch_nonempty _ n t hc
            | inr hx => exact ih p hx

/-- C10 witness: the bare definition Notes is dropped between two well-formed
definitions. -/
theorem C10_witness :
    processDefs (str "T") [str "Notes", str "A INTEGER"] =
      processDefs (str "T") [str "A INTEGER"] :=
  C10_bare_column_dropped.1 (str "T") (str "Notes") [str "A INTEGER"]
    (by decide) (by decide)

end Dbms2
